import Mathlib

/-!
Shallow embedding of the core of `fbx_objects_depviz` (files
`src/graph/mod.rs`, `src/fbx/mod.rs`, `src/fbx/filter.rs`).

Modelling conventions:
* Rust `i64` identifiers become `Int` (no arithmetic is performed on them).
* `HashMap<String, String>` style mappings become association lists
  (`Styles`) with replace-on-insert semantics; iteration order of a Rust
  `HashMap` is arbitrary, and no claim below depends on it.
* `BTreeMap<i64, Node>` becomes an association list (`NodeMap`) with the
  `insert`/`get`/`get_mut` operations used by the source.
* `HashSet<i64>` worklists of the traversal loops become duplicate-free
  lists (`addNew` inserts an element only when absent).
* The external regex crate is abstracted: a compiled `Regex` is a
  `Matcher := String → Bool` (`is_match`), and `Regex::new` is a
  parameter `rnew : RegexNew` which may fail (`Except.error`), mirroring
  `Result<Regex, regex::Error>`.
* Rust `panic!`/`unwrap` failure inside `Filters::apply` is modelled by
  returning `Except.error g` where `g` is the graph state at the moment
  of the panic (the caller's `&mut Graph` retains mutations already done).
-/

/-- Compiled regular expression, abstracted to its `is_match` behaviour. -/
abbrev Matcher : Type := String → Bool

/-- Abstraction of `Regex::new`: pattern compilation that may fail. -/
abbrev RegexNew : Type := String → Except Unit Matcher

/-- Style mapping: `HashMap<String, String>` as an association list. -/
abbrev Styles : Type := List (String × String)

/-- Model of `HashMap::insert`: replace the value when the key is present,
otherwise add the binding. -/
def Styles.insert (m : Styles) (k v : String) : Styles :=
  if (List.any m (fun p => p.1 = k)) then
    List.map (fun p => if p.1 = k then (k, v) else p) m
  else
    m ++ [(k, v)]

/-- Model of `HashMap::remove` restricted to its effect on the mapping. -/
def Styles.remove (m : Styles) (k : String) : Styles :=
  List.filter (fun p => ¬ (p.1 = k)) m

/-- Model of `HashMap::get`. -/
def Styles.get? (m : Styles) (k : String) : Option String :=
  Option.map Prod.snd (List.find? (fun p => p.1 = k) m)

/-- Fold `Styles.insert` over a list of pairs (models `for (k, v) in map
\x7b target.insert(k.clone(), v.clone()) \x7d`). -/
def Styles.insertAll (m : Styles) (l : List (String × String)) : Styles :=
  List.foldl (fun m p => Styles.insert m p.1 p.2) m l

/-- Association-list model of `BTreeMap<i64, α>`. -/
abbrev NodeMap (α : Type) : Type := List (Int × α)

/-- Model of `BTreeMap::get`. -/
def NodeMap.get? {α : Type} (m : NodeMap α) (k : Int) : Option α :=
  Option.map Prod.snd (List.find? (fun p => p.1 = k) m)

/-- Model of `BTreeMap::insert` (sorted insertion, returning the previous
value at the key when present, like the Rust method). -/
def NodeMap.insert {α : Type} : NodeMap α → Int → α → Option α × NodeMap α
  | [], k, v => (none, [(k, v)])
  | (k', v') :: rest, k, v =>
    if k < k' then
      (none, (k, v) :: (k', v') :: rest)
    else if k = k' then
      (some v', (k, v) :: rest)
    else
      let r := NodeMap.insert rest k v
      (r.1, (k', v') :: r.2)

/-- Model of `map.get_mut(&k).map(f)`: update the entry at `k` in place
when present, do nothing otherwise. -/
def NodeMap.update {α : Type} (m : NodeMap α) (k : Int) (f : α → α) : NodeMap α :=
  List.map (fun p => if p.1 = k then (p.1, f p.2) else p) m

/-- Keys of the mapping, in iteration order. -/
def NodeMap.keys {α : Type} (m : NodeMap α) : List Int :=
  List.map Prod.fst m

/-- Model of `BTreeMap<String, α>::get` (used for operation-group lookup). -/
def lookupStr {α : Type} (m : List (String × α)) (k : String) : Option α :=
  Option.map Prod.snd (List.find? (fun p => p.1 = k) m)

/-- Insert an element into a duplicate-free worklist (`HashSet::insert`). -/
def addNew (l : List Int) (x : Int) : List Int :=
  if x ∈ l then l else l ++ [x]

/-- Insert many elements into a duplicate-free worklist. -/
def addNewAll (l : List Int) (xs : List Int) : List Int :=
  List.foldl addNew l xs

/-- Node of the generic graph (`graph::Node<T>`). -/
structure Node (T : Type) where
  id : Int
  visible : Bool
  styles : Styles
  data : T
  deriving DecidableEq

/-- Edge of the generic graph (`graph::Edge<T>`). -/
structure Edge (T : Type) where
  parent : Int
  child : Int
  styles : Styles
  data : T
  deriving DecidableEq

/-- The generic graph (`graph::Graph<N, E>`). -/
structure Graph (N E : Type) where
  name : String
  graph_styles : Styles
  node_styles : Styles
  edge_styles : Styles
  nodes : NodeMap (Node N)
  edges : List (Edge E)
  deriving DecidableEq

/-- Constructor `Node::new_with_data`. -/
def Node.new_with_data {T : Type} (id : Int) (data : T) : Node T :=
  { id := id, visible := true, styles := [], data := data }

/-- Constructor `Edge::new_with_data`. -/
def Edge.new_with_data {T : Type} (parent child : Int) (data : T) : Edge T :=
  { parent := parent, child := child, styles := [], data := data }

/-- Accessor `Node::is_visible`. -/
def Node.is_visible {T : Type} (n : Node T) : Bool :=
  n.visible

/-- Method `Graph::add_node`: insert keyed by the node's own identifier,
returning the replaced node when one existed. -/
def Graph.add_node {N E : Type} (g : Graph N E) (node : Node N) :
    Option (Node N) × Graph N E :=
  let r := NodeMap.insert g.nodes node.id node
  (r.1, { g with nodes := r.2 })

/-- Method `Graph::add_edge`: append, with no endpoint validation. -/
def Graph.add_edge {N E : Type} (g : Graph N E) (e : Edge E) : Graph N E :=
  { g with edges := g.edges ++ [e] }

/-- Function `style_escape`, i.e. `raw.replace("\"", "\\\"")`: since the
pattern is the single character `"`, this is the character-wise map
sending `"` to `\"` and leaving every other character unchanged. -/
def style_escape (raw : String) : String :=
  String.mk (List.flatMap raw.data
    (fun c => if c = '"' then ['\\', '"'] else [c]))

/-- Identifiers of parents of `i`: `edges.iter().filter(|e| e.child == i).map(|e| e.parent)`. -/
def parentsOf {E : Type} (edges : List (Edge E)) (i : Int) : List Int :=
  List.map Edge.parent (List.filter (fun e => e.child = i) edges)

/-- Identifiers of children of `i`: `edges.iter().filter(|e| e.parent == i).map(|e| e.child)`. -/
def childrenOf {E : Type} (edges : List (Edge E)) (i : Int) : List Int :=
  List.map Edge.child (List.filter (fun e => e.parent = i) edges)

/-- State of the breadth-first loops of `map_ascendant` / `map_descendant`:
the node mapping being mutated, the `done` set (as the list of processed
identifiers, most recent first) and the current frontier (`undone_next`). -/
structure TravState (N : Type) where
  nodes : NodeMap (Node N)
  done : List Int
  frontier : List Int

/-- Inner `for target in undone_current` loop of the traversal: `rem` is the
unprocessed part of the current frontier and `next` the accumulating
`undone_next` set. Skips targets already done; otherwise applies the
mutation via `get_mut`, queues not-yet-done neighbours, and marks the
target done. -/
def travProcess {N : Type} (nbrs : Int → List Int) (f : Node N → Node N) :
    NodeMap (Node N) → List Int → List Int → List Int →
    NodeMap (Node N) × List Int × List Int
  | nodes, done, next, [] => (nodes, done, next)
  | nodes, done, next, t :: rem =>
    if t ∈ done then
      travProcess nbrs f nodes done next rem
    else
      travProcess nbrs f (NodeMap.update nodes t f) (t :: done)
        (addNewAll next (List.filter (fun p => ¬ p ∈ done) (nbrs t))) rem

/-- One iteration of the outer `loop`: process the whole current frontier,
producing the next frontier from an empty `undone_next`. -/
def travStep {N : Type} (nbrs : Int → List Int) (f : Node N → Node N)
    (s : TravState N) : TravState N :=
  let r := travProcess nbrs f s.nodes s.done [] s.frontier
  { nodes := r.1, done := r.2.1, frontier := r.2.2 }

/-- The outer `loop` of the traversal, with explicit fuel: run one step,
stop when the next frontier is empty, otherwise continue. The fuel is a
modelling artifact; `travLoop_fuel_sufficient`-style lemmas below show the
loop always stops within the fuel passed by `map_ascendant` /
`map_descendant`. -/
def travLoop {N : Type} (nbrs : Int → List Int) (f : Node N → Node N) :
    Nat → TravState N → TravState N
  | 0, s => s
  | fuel + 1, s =>
    let s' := travStep nbrs f s
    if s'.frontier = [] then s' else travLoop nbrs f fuel s'

/-- Initial frontier of `map_ascendant`: the de-duplicated parents of the
targets (collected into a `HashSet`). -/
def ascendInit {E : Type} (edges : List (Edge E)) (targets : List Int) : List Int :=
  addNewAll [] (List.flatMap targets (parentsOf edges))

/-- Initial frontier of `map_descendant`: the de-duplicated children of the
targets. -/
def descendInit {E : Type} (edges : List (Edge E)) (targets : List Int) : List Int :=
  addNewAll [] (List.flatMap targets (childrenOf edges))

/-- Complete run of the `map_ascendant` loop, exposing the final state
(including the `done` set, i.e. the processed identifiers). -/
def ascendantRun {N E : Type} (g : Graph N E) (targets : List Int)
    (f : Node N → Node N) : TravState N :=
  travLoop (parentsOf g.edges) f (g.edges.length + 1)
    { nodes := g.nodes, done := [], frontier := ascendInit g.edges targets }

/-- Complete run of the `map_descendant` loop. -/
def descendantRun {N E : Type} (g : Graph N E) (targets : List Int)
    (f : Node N → Node N) : TravState N :=
  travLoop (childrenOf g.edges) f (g.edges.length + 1)
    { nodes := g.nodes, done := [], frontier := descendInit g.edges targets }

/-- Method `Graph::map_ascendant`. -/
def Graph.map_ascendant {N E : Type} (g : Graph N E) (targets : List Int)
    (f : Node N → Node N) : Graph N E :=
  { g with nodes := (ascendantRun g targets f).nodes }

/-- Method `Graph::map_descendant`. -/
def Graph.map_descendant {N E : Type} (g : Graph N E) (targets : List Int)
    (f : Node N → Node N) : Graph N E :=
  { g with nodes := (descendantRun g targets f).nodes }

/-- Method `Graph::map_parents`: single hop, mutation applied through
`get_mut` for each parent identifier (duplicates included, as in the
source, which collects into a `Vec`). -/
def Graph.map_parents {N E : Type} (g : Graph N E) (targets : List Int)
    (f : Node N → Node N) : Graph N E :=
  { g with nodes :=
             List.foldl (fun m t => NodeMap.update m t f)
               g.nodes (List.flatMap targets (parentsOf g.edges)) }

/-- Method `Graph::map_children`: single hop. -/
def Graph.map_children {N E : Type} (g : Graph N E) (targets : List Int)
    (f : Node N → Node N) : Graph N E :=
  { g with nodes :=
             List.foldl (fun m t => NodeMap.update m t f)
               g.nodes (List.flatMap targets (childrenOf g.edges)) }

/-- Reachability in one or more hops along `nbrs` from some element of
`targets` (ascendant: `nbrs = parentsOf edges`; descendant:
`nbrs = childrenOf edges`). -/
def ReachesVia (nbrs : Int → List Int) (targets : List Int) (i : Int) : Prop :=
  ∃ t, t ∈ targets ∧ Relation.TransGen (fun a b => b ∈ nbrs a) t i

/-- Domain payload of an FBX object (`ObjectProperties`). -/
structure ObjectProperties where
  uid : Int
  name : String
  «class» : String
  subclass : String
  deriving DecidableEq

/-- Alias `NodeData = Option<ObjectProperties>`. -/
abbrev NodeData : Type := Option ObjectProperties

/-- Edge payload (`EdgeData`). -/
structure EdgeData where
  connection_type : Option String
  property_name : Option String
  deriving DecidableEq

/-- Alias `fbx::Graph`. -/
abbrev FbxGraph : Type := Graph NodeData EdgeData

/-- Alias `fbx::Node`. -/
abbrev FbxNode : Type := Node NodeData

/-- Alias `fbx::Edge`. -/
abbrev FbxEdge : Type := Edge EdgeData

/-- Visibility condition on one endpoint of an edge in
`Graph::output_visible_nodes`: `nodes.get(&id).map(|n| n.is_visible())`. -/
def Graph.endpoint_visibility {N E : Type} (g : Graph N E) (i : Int) : Option Bool :=
  Option.map Node.is_visible (NodeMap.get? g.nodes i)

/-- The edge-emission test of `Graph::output_visible_nodes`:
`(p.is_some() || c.is_some()) && (p.unwrap_or(flag) && c.unwrap_or(flag))`. -/
def Graph.edge_is_printed {N E : Type} (g : Graph N E)
    (print_unregistered_nodes : Bool) (e : Edge E) : Bool :=
  let p := g.endpoint_visibility e.parent
  let c := g.endpoint_visibility e.child
  (p.isSome || c.isSome) &&
    (p.getD print_unregistered_nodes && c.getD print_unregistered_nodes)

/-- Rendering of one style attribute, `key="value"` with both parts passed
through `style_escape`. -/
def styleAttr (p : String × String) : String :=
  style_escape p.1 ++ "=\"" ++ style_escape p.2 ++ "\""

/-- Rendering of the bracketed style list of `Node::print` / `Edge::print`
(empty when there are no styles). -/
def stylesBlock (st : Styles) : String :=
  if st.length > 0 then
    " [" ++ String.intercalate ", " (List.map styleAttr st) ++ "]"
  else
    ""

/-- Line printed by `Node::print`. -/
def Node.print {T : Type} (n : Node T) : String :=
  "\t" ++ toString n.id ++ stylesBlock n.styles

/-- Line printed by `Edge::print`. -/
def Edge.print {T : Type} (e : Edge T) : String :=
  "\t" ++ toString e.parent ++ " -> " ++ toString e.child ++ stylesBlock e.styles

/-- Method `Graph::output_visible_nodes`, as the list of emitted lines
(the leading block from `print_beginning` is abstracted into its header
line; the claims below concern the node and edge lines). -/
def Graph.output_visible_nodes {N E : Type} (g : Graph N E)
    (print_unregistered_nodes : Bool) : List String :=
  ["digraph \"" ++ g.name ++ "\" \x7b"]
    ++ List.map (fun p => Node.print p.2)
         (List.filter (fun p => Node.is_visible p.2) g.nodes)
    ++ List.map Edge.print
         (List.filter (g.edge_is_printed print_unregistered_nodes) g.edges)
    ++ ["\x7d"]

/-- Declarative filter document (`Filters`). Overlay mappings are kept as
lists of key-value pairs; a Rust `HashMap` iterates them in arbitrary
order, and no claim below depends on that order. -/
structure NodeOperation where
  name : String
  args : List (List String)
  deriving DecidableEq

/-- Edge operation (`EdgeOperation`). -/
structure EdgeOperation where
  name : String
  args : List (List String)
  deriving DecidableEq

/-- Declarative node condition (`NodeFilterCondition`). -/
structure NodeFilterCondition where
  «class» : Option String
  subclass : Option String
  name : Option String
  uid : Option String

/-- Compiled node condition (`CompiledNodeFilterCondition`). -/
structure CompiledNodeFilterCondition where
  «class» : Option Matcher
  subclass : Option Matcher
  name : Option Matcher
  uid : Option Matcher

/-- Method `NodeFilterCondition::compile`: compile each present pattern,
propagating the first failure. -/
def NodeFilterCondition.compile (rnew : RegexNew) (c : NodeFilterCondition) :
    Except Unit CompiledNodeFilterCondition := do
  let cls ← match c.«class» with
            | some s => Except.map some (rnew s)
            | none => Except.ok none
  let sub ← match c.subclass with
            | some s => Except.map some (rnew s)
            | none => Except.ok none
  let nam ← match c.name with
            | some s => Except.map some (rnew s)
            | none => Except.ok none
  let uid ← match c.uid with
            | some s => Except.map some (rnew s)
            | none => Except.ok none
  Except.ok { «class» := cls, subclass := sub, name := nam, uid := uid }

/-- Method `CompiledNodeFilterCondition::is_match`. -/
def CompiledNodeFilterCondition.is_match (c : CompiledNodeFilterCondition)
    (node : FbxNode) : Bool :=
  (match node.data with
   | some data =>
     (match c.«class» with
      | some re => re data.«class»
      | none => true) &&
     (match c.subclass with
      | some re => re data.subclass
      | none => true) &&
     (match c.name with
      | some re => re data.name
      | none => true)
   | none =>
     !(c.«class».isSome || c.subclass.isSome || c.name.isSome)) &&
  (match c.uid with
   | some re => re (toString node.id)
   | none => true)

/-- Declarative edge condition (`EdgeFilterCondition`). -/
structure EdgeFilterCondition where
  src_condition : Option NodeFilterCondition
  dst_condition : Option NodeFilterCondition
  connection_type : Option String
  property_name : Option String

/-- Compiled edge condition (`CompiledEdgeFilterCondition`). -/
structure CompiledEdgeFilterCondition where
  src_condition : Option CompiledNodeFilterCondition
  dst_condition : Option CompiledNodeFilterCondition
  connection_type : Option Matcher
  property_name : Option Matcher

/-- Method `EdgeFilterCondition::compile`. -/
def EdgeFilterCondition.compile (rnew : RegexNew) (c : EdgeFilterCondition) :
    Except Unit CompiledEdgeFilterCondition := do
  let src ← match c.src_condition with
            | some s => Except.map some (s.compile rnew)
            | none => Except.ok none
  let dst ← match c.dst_condition with
            | some s => Except.map some (s.compile rnew)
            | none => Except.ok none
  let ct ← match c.connection_type with
           | some s => Except.map some (rnew s)
           | none => Except.ok none
  let pn ← match c.property_name with
           | some s => Except.map some (rnew s)
           | none => Except.ok none
  Except.ok { src_condition := src, dst_condition := dst,
              connection_type := ct, property_name := pn }

/-- Method `CompiledEdgeFilterCondition::is_match`. -/
def CompiledEdgeFilterCondition.is_match (c : CompiledEdgeFilterCondition)
    (e : FbxEdge) (nodes : NodeMap FbxNode) : Bool :=
  (match c.src_condition with
   | some cond =>
     (match NodeMap.get? nodes e.parent with
      | some src => cond.is_match src
      | none => false)
   | none => true) &&
  (match c.dst_condition with
   | some cond =>
     (match NodeMap.get? nodes e.child with
      | some dst => cond.is_match dst
      | none => false)
   | none => true) &&
  (match c.connection_type with
   | some re =>
     (match e.data.connection_type with
      | some ct => re ct
      | none => false)
   | none => true) &&
  (match c.property_name with
   | some re =>
     (match e.data.property_name with
      | some pn => re pn
      | none => false)
   | none => true)

/-- Node filter rule (`NodeFilter`). -/
structure NodeFilter where
  condition : NodeFilterCondition
  operations : List String

/-- Edge filter rule (`EdgeFilter`). -/
structure EdgeFilter where
  condition : EdgeFilterCondition
  operations : List String

/-- The deserialized filter document (`Filters`). -/
structure Filters where
  graph_styles : List (String × String)
  node_styles : List (String × String)
  edge_styles : List (String × String)
  node_operations : List (String × List NodeOperation)
  edge_operations : List (String × List EdgeOperation)
  node_filters : List NodeFilter
  edge_filters : List EdgeFilter
  show_implicit_nodes : Option Bool

/-- One target token of a `hide`/`show` node operation: dispatch on the
fixed vocabulary, silently ignoring anything else. -/
def applyHideShowTarget (visibility : Bool) (id : Int) (g : FbxGraph)
    (target : String) : FbxGraph :=
  if target = "self" then
    { g with nodes := NodeMap.update g.nodes id
                        (fun n => { n with visible := visibility }) }
  else if target = "ascendant" then
    g.map_ascendant [id] (fun n => { n with visible := visibility })
  else if target = "descendant" then
    g.map_descendant [id] (fun n => { n with visible := visibility })
  else if target = "parents" then
    g.map_parents [id] (fun n => { n with visible := visibility })
  else if target = "children" then
    g.map_children [id] (fun n => { n with visible := visibility })
  else
    g

/-- One node operation of `Filters::apply_node_operations`: the inner
`match op.name.as_ref()` dispatch. -/
def applyNodeOp (id : Int) (g : FbxGraph) (op : NodeOperation) : FbxGraph :=
  if op.name = "update-attr" then
    List.foldl
      (fun g arg =>
        match arg with
        | name0 :: value0 :: _ =>
          { g with nodes := NodeMap.update g.nodes id
                              (fun n => { n with styles :=
                                            Styles.insert n.styles name0 value0 }) }
        | _ => g)
      g op.args
  else if op.name = "remove-attr" then
    match op.args.head? with
    | some args0 =>
      List.foldl
        (fun g name =>
          { g with nodes := NodeMap.update g.nodes id
                              (fun n => { n with styles :=
                                            Styles.remove n.styles name }) })
        g args0
    | none => g
  else if op.name = "hide" ∨ op.name = "show" then
    let visibility := op.name = "show"
    match op.args.head? with
    | some args0 => List.foldl (applyHideShowTarget visibility id) g args0
    | none => g
  else
    g

/-- Method `Filters::apply_node_operations`: look up each named operation
group (ignoring unknown names) and run its operations in order. -/
def Filters.apply_node_operations (fs : Filters) (id : Int) (g : FbxGraph)
    (ops : List String) : FbxGraph :=
  List.foldl
    (fun g group => List.foldl (applyNodeOp id) g group)
    g (List.filterMap (lookupStr fs.node_operations) ops)

/-- One edge operation of `Filters::apply_edge_operation`. -/
def applyEdgeOp (e : FbxEdge) (op : EdgeOperation) : FbxEdge :=
  if op.name = "update-attr" then
    List.foldl
      (fun e arg =>
        match arg with
        | name0 :: value0 :: _ =>
          { e with styles := Styles.insert e.styles name0 value0 }
        | _ => e)
      e op.args
  else if op.name = "remove-attr" then
    match op.args.head? with
    | some args0 =>
      List.foldl (fun e name => { e with styles := Styles.remove e.styles name })
        e args0
    | none => e
  else
    e

/-- Method `Filters::apply_edge_operation`. -/
def Filters.apply_edge_operation (fs : Filters) (e : FbxEdge)
    (ops : List String) : FbxEdge :=
  List.foldl
    (fun e group => List.foldl applyEdgeOp e group)
    e (List.filterMap (lookupStr fs.edge_operations) ops)

/-- Step 1 of `Filters::apply`: copy the node/edge/graph style overlays
into the graph's default mappings (in the order the source writes them). -/
def copyOverlays (fs : Filters) (g : FbxGraph) : FbxGraph :=
  { g with node_styles := Styles.insertAll g.node_styles fs.node_styles,
           edge_styles := Styles.insertAll g.edge_styles fs.edge_styles,
           graph_styles := Styles.insertAll g.graph_styles fs.graph_styles }

/-- Compilation of all node filter conditions
(`collect::<Result<Vec<_>, _>>()`: stops at the first failure). -/
def compileNodeFilters (rnew : RegexNew) (fs : Filters) :
    Except Unit (List (CompiledNodeFilterCondition × List String)) :=
  List.mapM
    (fun f => Except.map (fun c => (c, f.operations)) (f.condition.compile rnew))
    fs.node_filters

/-- Compilation of all edge filter conditions. -/
def compileEdgeFilters (rnew : RegexNew) (fs : Filters) :
    Except Unit (List (CompiledEdgeFilterCondition × List String)) :=
  List.mapM
    (fun f => Except.map (fun c => (c, f.operations)) (f.condition.compile rnew))
    fs.edge_filters

/-- Match set of one compiled node rule: the identifiers whose node
currently satisfies the condition, collected before any of the rule's
operations run. -/
def matchedUids (g : FbxGraph) (cond : CompiledNodeFilterCondition) : List Int :=
  List.map Prod.fst (List.filter (fun p => cond.is_match p.2) g.nodes)

/-- One node rule of `Filters::apply`: collect `target_uids` once from the
current graph, then apply the rule's operation groups to each match. -/
def applyNodeRule (fs : Filters) (g : FbxGraph)
    (rule : CompiledNodeFilterCondition × List String) : FbxGraph :=
  List.foldl (fun g uid => fs.apply_node_operations uid g rule.2)
    g (matchedUids g rule.1)

/-- The node-rule pass: rules in declared order. -/
def applyNodeRules (fs : Filters) (g : FbxGraph)
    (conds : List (CompiledNodeFilterCondition × List String)) : FbxGraph :=
  List.foldl (applyNodeRule fs) g conds

/-- One edge rule of `Filters::apply`: the matching edges are selected
against the current nodes mapping (unchanged by edge operations) and each
matched edge is mutated in place. -/
def applyEdgeRule (fs : Filters) (g : FbxGraph)
    (rule : CompiledEdgeFilterCondition × List String) : FbxGraph :=
  { g with edges :=
             List.map
               (fun e => if rule.1.is_match e g.nodes then
                           fs.apply_edge_operation e rule.2
                         else e)
               g.edges }

/-- The edge-rule pass. -/
def applyEdgeRules (fs : Filters) (g : FbxGraph)
    (conds : List (CompiledEdgeFilterCondition × List String)) : FbxGraph :=
  List.foldl (applyEdgeRule fs) g conds

/-- Method `Filters::apply`. Overlays are copied first; then the node
conditions are compiled (`unwrap` panics on failure: modelled by
`Except.error` carrying the graph state at the panic), the node rules run,
the edge conditions are compiled, and the edge rules run. -/
def Filters.apply (fs : Filters) (rnew : RegexNew) (g : FbxGraph) :
    Except FbxGraph FbxGraph :=
  let g1 := copyOverlays fs g
  match compileNodeFilters rnew fs with
  | Except.error _ => Except.error g1
  | Except.ok nodeConds =>
    let g2 := applyNodeRules fs g1 nodeConds
    match compileEdgeFilters rnew fs with
    | Except.error _ => Except.error g2
    | Except.ok edgeConds => Except.ok (applyEdgeRules fs g2 edgeConds)

/-- Spec-shaped definition of per-endpoint visibility, following the
spec's words: a registered endpoint is visible according to its node's
flag, an unregistered one according to the configurable default. -/
def endpointVisibleSpec {N E : Type} (g : Graph N E) (flag : Bool) (i : Int) : Bool :=
  match NodeMap.get? g.nodes i with
  | some n => n.is_visible
  | none => flag

/-- Well-formedness of the nodes mapping: each key equals the identifier
of the node stored under it. -/
def NodesWF {N : Type} (m : NodeMap (Node N)) : Prop :=
  ∀ p, p ∈ m → p.1 = p.2.id

lemma NodeMap.get?_cons {α : Type} (a : Int) (v : α) (rest : NodeMap α) (i : Int) :
    NodeMap.get? ((a, v) :: rest) i = if a = i then some v else NodeMap.get? rest i := by
  by_cases h : a = i <;> simp [NodeMap.get?, List.find?_cons, h]

lemma NodeMap.get?_update {α : Type} (m : NodeMap α) (k : Int) (f : α → α) (i : Int) :
    NodeMap.get? (NodeMap.update m k f) i =
      if i = k then Option.map f (NodeMap.get? m k) else NodeMap.get? m i := by
  induction m with
  | nil => by_cases h : i = k <;> simp [NodeMap.get?, NodeMap.update, h]
  | cons p rest ih =>
    obtain ⟨a, v⟩ := p
    have hupd : NodeMap.update ((a, v) :: rest) k f
        = (if a = k then (a, f v) else (a, v)) :: NodeMap.update rest k f := by
      simp [NodeMap.update]
    rw [hupd]
    by_cases hak : a = k
    · by_cases hia : a = i
      · subst hia
        simp [hak, NodeMap.get?_cons]
      · have hik : i ≠ k := fun h => hia (hak.trans h.symm)
        have hki : k ≠ i := fun h => hik h.symm
        simp [hak, NodeMap.get?_cons, hia, hik, hki, ih]
    · by_cases hia : a = i
      · subst hia
        simp [hak, NodeMap.get?_cons]
      · simp [hak, NodeMap.get?_cons, hia, ih]

lemma NodeMap.keys_update {α : Type} (m : NodeMap α) (k : Int) (f : α → α) :
    NodeMap.keys (NodeMap.update m k f) = NodeMap.keys m := by
  simp only [NodeMap.keys, NodeMap.update, List.map_map]
  apply List.map_congr_left
  intro p _
  by_cases h : p.1 = k <;> simp [h]

lemma mem_addNew {l : List Int} {x y : Int} : y ∈ addNew l x ↔ y ∈ l ∨ y = x := by
  by_cases h : x ∈ l
  · simp only [addNew, if_pos h]
    exact ⟨Or.inl, fun hy => hy.elim id (fun e => e ▸ h)⟩
  · simp [addNew, h]

lemma mem_addNewAll {l xs : List Int} {y : Int} :
    y ∈ addNewAll l xs ↔ y ∈ l ∨ y ∈ xs := by
  induction xs generalizing l with
  | nil => simp [addNewAll]
  | cons x xs ih =>
    have : addNewAll l (x :: xs) = addNewAll (addNew l x) xs := rfl
    rw [this, ih, mem_addNew]
    simp
    tauto

lemma travProcess_cons {N : Type} (nbrs : Int → List Int) (f : Node N → Node N)
    (nodes : NodeMap (Node N)) (done next : List Int) (t : Int) (rem : List Int) :
    travProcess nbrs f nodes done next (t :: rem) =
      if t ∈ done then travProcess nbrs f nodes done next rem
      else travProcess nbrs f (NodeMap.update nodes t f) (t :: done)
        (addNewAll next (List.filter (fun p => ¬ p ∈ done) (nbrs t))) rem := by
  rw [travProcess]

lemma travProcess_done_suffix {N : Type} (nbrs : Int → List Int) (f : Node N → Node N)
    (rem : List Int) :
    ∀ (nodes : NodeMap (Node N)) (done next : List Int),
      ∃ new, (travProcess nbrs f nodes done next rem).2.1 = new ++ done := by
  induction rem with
  | nil => intro nodes done next; exact ⟨[], rfl⟩
  | cons t rem ih =>
    intro nodes done next
    rw [travProcess_cons]
    by_cases h : t ∈ done
    · rw [if_pos h]; exact ih nodes done next
    · rw [if_neg h]
      obtain ⟨new, hnew⟩ := ih (NodeMap.update nodes t f) (t :: done)
        (addNewAll next (List.filter (fun p => ¬ p ∈ done) (nbrs t)))
      refine ⟨new ++ [t], ?_⟩
      rw [List.append_assoc]
      exact hnew

lemma travProcess_done_mono {N : Type} (nbrs : Int → List Int) (f : Node N → Node N)
    (rem : List Int) (nodes : NodeMap (Node N)) (done next : List Int) {x : Int}
    (hx : x ∈ done) : x ∈ (travProcess nbrs f nodes done next rem).2.1 := by
  obtain ⟨new, hnew⟩ := travProcess_done_suffix nbrs f rem nodes done next
  rw [hnew]
  exact List.mem_append_right _ hx

lemma travProcess_rem_done {N : Type} (nbrs : Int → List Int) (f : Node N → Node N)
    (rem : List Int) :
    ∀ (nodes : NodeMap (Node N)) (done next : List Int) {x : Int},
      x ∈ rem → x ∈ (travProcess nbrs f nodes done next rem).2.1 := by
  induction rem with
  | nil => intro _ _ _ _ hx; cases hx
  | cons t rem ih =>
    intro nodes done next x hx
    rw [travProcess_cons]
    by_cases h : t ∈ done
    · rw [if_pos h]
      rcases List.mem_cons.mp hx with hxt | hxr
      · subst hxt
        exact travProcess_done_mono nbrs f rem nodes done next h
      · exact ih nodes done next hxr
    · rw [if_neg h]
      rcases List.mem_cons.mp hx with hxt | hxr
      · subst hxt
        exact travProcess_done_mono nbrs f rem _ _ _ (List.mem_cons_self _ _)
      · exact ih _ _ _ hxr

lemma travProcess_done_src {N : Type} (nbrs : Int → List Int) (f : Node N → Node N)
    (rem : List Int) :
    ∀ (nodes : NodeMap (Node N)) (done next : List Int) {x : Int},
      x ∈ (travProcess nbrs f nodes done next rem).2.1 → x ∈ done ∨ x ∈ rem := by
  induction rem with
  | nil => intro _ _ _ _ hx; exact Or.inl hx
  | cons t rem ih =>
    intro nodes done next x hx
    rw [travProcess_cons] at hx
    by_cases h : t ∈ done
    · rw [if_pos h] at hx
      rcases ih nodes done next hx with hd | hr
      · exact Or.inl hd
      · exact Or.inr (List.mem_cons_of_mem _ hr)
    · rw [if_neg h] at hx
      rcases ih _ _ _ hx with hd | hr
      · rcases List.mem_cons.mp hd with hxt | hxd
        · exact Or.inr (List.mem_cons.mpr (Or.inl hxt))
        · exact Or.inl hxd
      · exact Or.inr (List.mem_cons_of_mem _ hr)

lemma travProcess_next_mono {N : Type} (nbrs : Int → List Int) (f : Node N → Node N)
    (rem : List Int) :
    ∀ (nodes : NodeMap (Node N)) (done next : List Int) {x : Int},
      x ∈ next → x ∈ (travProcess nbrs f nodes done next rem).2.2 := by
  induction rem with
  | nil => intro _ _ _ _ hx; exact hx
  | cons t rem ih =>
    intro nodes done next x hx
    rw [travProcess_cons]
    by_cases h : t ∈ done
    · rw [if_pos h]; exact ih nodes done next hx
    · rw [if_neg h]
      exact ih _ _ _ (mem_addNewAll.mpr (Or.inl hx))

lemma travProcess_next_src {N : Type} (nbrs : Int → List Int) (f : Node N → Node N)
    (rem : List Int) :
    ∀ (nodes : NodeMap (Node N)) (done next : List Int) {x : Int},
      x ∈ (travProcess nbrs f nodes done next rem).2.2 →
        x ∈ next ∨ ∃ t, t ∈ rem ∧ x ∈ nbrs t := by
  induction rem with
  | nil => intro _ _ _ _ hx; exact Or.inl hx
  | cons t rem ih =>
    intro nodes done next x hx
    rw [travProcess_cons] at hx
    by_cases h : t ∈ done
    · rw [if_pos h] at hx
      rcases ih nodes done next hx with hn | ⟨u, hu, hx2⟩
      · exact Or.inl hn
      · exact Or.inr ⟨u, List.mem_cons_of_mem _ hu, hx2⟩
    · rw [if_neg h] at hx
      rcases ih _ _ _ hx with hn | ⟨u, hu, hx2⟩
      · rcases mem_addNewAll.mp hn with hn2 | hn2
        · exact Or.inl hn2
        · exact Or.inr ⟨t, List.mem_cons_self t rem, (List.mem_filter.mp hn2).1⟩
      · exact Or.inr ⟨u, List.mem_cons_of_mem _ hu, hx2⟩

lemma travProcess_done_nodup {N : Type} (nbrs : Int → List Int) (f : Node N → Node N)
    (rem : List Int) :
    ∀ (nodes : NodeMap (Node N)) (done next : List Int), done.Nodup →
      (travProcess nbrs f nodes done next rem).2.1.Nodup := by
  induction rem with
  | nil => intro _ _ _ h; exact h
  | cons t rem ih =>
    intro nodes done next h
    rw [travProcess_cons]
    by_cases ht : t ∈ done
    · rw [if_pos ht]; exact ih nodes done next h
    · rw [if_neg ht]
      exact ih _ _ _ (List.nodup_cons.mpr ⟨ht, h⟩)

lemma travProcess_closure {N : Type} (nbrs : Int → List Int) (f : Node N → Node N)
    (rem : List Int) :
    ∀ (nodes : NodeMap (Node N)) (done next : List Int) {x : Int},
      x ∈ (travProcess nbrs f nodes done next rem).2.1 →
        x ∈ done ∨ ∀ p, p ∈ nbrs x →
          p ∈ (travProcess nbrs f nodes done next rem).2.1 ∨
          p ∈ (travProcess nbrs f nodes done next rem).2.2 := by
  induction rem with
  | nil => intro _ _ _ _ hx; exact Or.inl hx
  | cons t rem ih =>
    intro nodes done next x hx
    rw [travProcess_cons] at hx ⊢
    by_cases h : t ∈ done
    · rw [if_pos h] at hx ⊢
      exact ih nodes done next hx
    · rw [if_neg h] at hx ⊢
      rcases ih _ _ _ hx with hd | hcl
      · rcases List.mem_cons.mp hd with hxt | hxd
        · subst hxt
          refine Or.inr (fun p hp => ?_)
          by_cases hpd : p ∈ done
          · exact Or.inl (travProcess_done_mono nbrs f rem _ _ _
              (List.mem_cons_of_mem _ hpd))
          · refine Or.inr (travProcess_next_mono nbrs f rem _ _ _
              (mem_addNewAll.mpr (Or.inr ?_)))
            exact List.mem_filter.mpr ⟨hp, by simp [hpd]⟩
        · exact Or.inl hxd
      · exact Or.inr hcl

lemma travProcess_get? {N : Type} (nbrs : Int → List Int) (f : Node N → Node N)
    (rem : List Int) :
    ∀ (nodes : NodeMap (Node N)) (done next : List Int) (i : Int),
      NodeMap.get? (travProcess nbrs f nodes done next rem).1 i =
        if i ∈ (travProcess nbrs f nodes done next rem).2.1 ∧ ¬ i ∈ done
        then Option.map f (NodeMap.get? nodes i)
        else NodeMap.get? nodes i := by
  induction rem with
  | nil =>
    intro nodes done next i
    rw [show travProcess nbrs f nodes done next [] = (nodes, done, next) from rfl]
    rw [if_neg (fun h => h.2 h.1)]
  | cons t rem ih =>
    intro nodes done next i
    rw [travProcess_cons]
    by_cases h : t ∈ done
    · rw [if_pos h]
      exact ih nodes done next i
    · rw [if_neg h]
      have H := ih (NodeMap.update nodes t f) (t :: done)
        (addNewAll next (List.filter (fun p => ¬ p ∈ done) (nbrs t))) i
      by_cases hit : i = t
      · subst hit
        have hidone := travProcess_done_mono nbrs f rem (NodeMap.update nodes i f)
          (i :: done) (addNewAll next (List.filter (fun p => ¬ p ∈ done) (nbrs i)))
          (List.mem_cons_self i done)
        rw [if_neg (fun hc => hc.2 (List.mem_cons_self i done))] at H
        rw [H, NodeMap.get?_update, if_pos rfl, if_pos ⟨hidone, h⟩]
      · have hupd : NodeMap.get? (NodeMap.update nodes t f) i = NodeMap.get? nodes i := by
          rw [NodeMap.get?_update, if_neg hit]
        rw [hupd] at H
        rw [H]
        refine if_congr ?_ rfl rfl
        simp [List.mem_cons, hit]

lemma travProcess_growth {N : Type} (nbrs : Int → List Int) (f : Node N → Node N)
    (rem : List Int) :
    ∀ (nodes : NodeMap (Node N)) (done next : List Int),
      (travProcess nbrs f nodes done next rem).2.2 ≠ next →
        done.length < (travProcess nbrs f nodes done next rem).2.1.length := by
  induction rem with
  | nil => intro _ _ _ hne; exact absurd rfl hne
  | cons t rem ih =>
    intro nodes done next hne
    rw [travProcess_cons] at hne ⊢
    by_cases h : t ∈ done
    · rw [if_pos h] at hne ⊢
      exact ih nodes done next hne
    · rw [if_neg h] at hne ⊢
      obtain ⟨new, hnew⟩ := travProcess_done_suffix nbrs f rem (NodeMap.update nodes t f)
        (t :: done) (addNewAll next (List.filter (fun p => ¬ p ∈ done) (nbrs t)))
      rw [hnew, List.length_append, List.length_cons]
      omega

lemma NodesWF_update {N : Type} {m : NodeMap (Node N)} {k : Int} {f : Node N → Node N}
    (hf : ∀ n, (f n).id = n.id) (hm : NodesWF m) : NodesWF (NodeMap.update m k f) := by
  intro p hp
  rcases List.mem_map.mp hp with ⟨q, hq, hpq⟩
  by_cases hqk : q.1 = k
  · rw [← hpq]
    simp only [hqk, if_pos]
    simpa [hf q.2, hqk] using hm q hq
  · rw [← hpq]
    simp only [hqk, if_neg, not_false_iff]
    exact hm q hq

lemma travProcess_nodesWF {N : Type} (nbrs : Int → List Int) (f : Node N → Node N)
    (hf : ∀ n, (f n).id = n.id) (rem : List Int) :
    ∀ (nodes : NodeMap (Node N)) (done next : List Int), NodesWF nodes →
      NodesWF (travProcess nbrs f nodes done next rem).1 := by
  induction rem with
  | nil => intro _ _ _ hw; exact hw
  | cons t rem ih =>
    intro nodes done next hw
    rw [travProcess_cons]
    by_cases h : t ∈ done
    · rw [if_pos h]; exact ih nodes done next hw
    · rw [if_neg h]
      exact ih _ _ _ (NodesWF_update hf hw)

lemma travProcess_keys {N : Type} (nbrs : Int → List Int) (f : Node N → Node N)
    (rem : List Int) :
    ∀ (nodes : NodeMap (Node N)) (done next : List Int),
      NodeMap.keys (travProcess nbrs f nodes done next rem).1 = NodeMap.keys nodes := by
  induction rem with
  | nil => intro _ _ _; rfl
  | cons t rem ih =>
    intro nodes done next
    rw [travProcess_cons]
    by_cases h : t ∈ done
    · rw [if_pos h]; exact ih nodes done next
    · rw [if_neg h]
      rw [ih _ _ _, NodeMap.keys_update]

lemma travLoop_succ {N : Type} (nbrs : Int → List Int) (f : Node N → Node N)
    (fuel : Nat) (s : TravState N) :
    travLoop nbrs f (fuel + 1) s =
      if (travStep nbrs f s).frontier = [] then travStep nbrs f s
      else travLoop nbrs f fuel (travStep nbrs f s) := by
  rw [travLoop]

lemma travStep_done_mono {N : Type} (nbrs : Int → List Int) (f : Node N → Node N)
    (s : TravState N) {x : Int} (hx : x ∈ s.done) : x ∈ (travStep nbrs f s).done :=
  travProcess_done_mono nbrs f s.frontier s.nodes s.done [] hx

lemma travLoop_done_mono {N : Type} (nbrs : Int → List Int) (f : Node N → Node N) :
    ∀ (fuel : Nat) (s : TravState N) {x : Int},
      x ∈ s.done → x ∈ (travLoop nbrs f fuel s).done := by
  intro fuel
  induction fuel with
  | zero => intro s x hx; exact hx
  | succ fuel ih =>
    intro s x hx
    rw [travLoop_succ]
    by_cases hfr : (travStep nbrs f s).frontier = []
    · rw [if_pos hfr]; exact travStep_done_mono nbrs f s hx
    · rw [if_neg hfr]; exact ih _ (travStep_done_mono nbrs f s hx)

lemma travLoop_done_nodup {N : Type} (nbrs : Int → List Int) (f : Node N → Node N) :
    ∀ (fuel : Nat) (s : TravState N), s.done.Nodup →
      (travLoop nbrs f fuel s).done.Nodup := by
  intro fuel
  induction fuel with
  | zero => intro s h; exact h
  | succ fuel ih =>
    intro s h
    rw [travLoop_succ]
    by_cases hfr : (travStep nbrs f s).frontier = []
    · rw [if_pos hfr]
      exact travProcess_done_nodup nbrs f s.frontier s.nodes s.done [] h
    · rw [if_neg hfr]
      exact ih _ (travProcess_done_nodup nbrs f s.frontier s.nodes s.done [] h)

lemma travLoop_get? {N : Type} (nbrs : Int → List Int) (f : Node N → Node N) :
    ∀ (fuel : Nat) (s : TravState N) (i : Int),
      NodeMap.get? (travLoop nbrs f fuel s).nodes i =
        if i ∈ (travLoop nbrs f fuel s).done ∧ ¬ i ∈ s.done
        then Option.map f (NodeMap.get? s.nodes i)
        else NodeMap.get? s.nodes i := by
  intro fuel
  induction fuel with
  | zero =>
    intro s i
    rw [show travLoop nbrs f 0 s = s from rfl, if_neg (fun h => h.2 h.1)]
  | succ fuel ih =>
    intro s i
    have A : ∀ j, NodeMap.get? (travStep nbrs f s).nodes j =
        if j ∈ (travStep nbrs f s).done ∧ ¬ j ∈ s.done
        then Option.map f (NodeMap.get? s.nodes j)
        else NodeMap.get? s.nodes j :=
      fun j => travProcess_get? nbrs f s.frontier s.nodes s.done [] j
    rw [travLoop_succ]
    by_cases hfr : (travStep nbrs f s).frontier = []
    · rw [if_pos hfr]; exact A i
    · rw [if_neg hfr]
      have B := ih (travStep nbrs f s) i
      rw [B, A i]
      by_cases h1 : i ∈ s.done
      · have h2 : i ∈ (travStep nbrs f s).done := travStep_done_mono nbrs f s h1
        rw [if_neg (fun hc => hc.2 h2), if_neg (fun hc => hc.2 h1),
          if_neg (fun hc => hc.2 h1)]
      · by_cases h2 : i ∈ (travStep nbrs f s).done
        · have h3 : i ∈ (travLoop nbrs f fuel (travStep nbrs f s)).done :=
            travLoop_done_mono nbrs f fuel _ h2
          rw [if_neg (fun hc => hc.2 h2), if_pos ⟨h2, h1⟩, if_pos ⟨h3, h1⟩]
        · by_cases h3 : i ∈ (travLoop nbrs f fuel (travStep nbrs f s)).done
          · rw [if_pos ⟨h3, h2⟩, if_neg (fun hc => absurd hc.1 h2), if_pos ⟨h3, h1⟩]
          · rw [if_neg (fun hc => absurd hc.1 h3), if_neg (fun hc => absurd hc.1 h2),
              if_neg (fun hc => absurd hc.1 h3)]

lemma travLoop_keys {N : Type} (nbrs : Int → List Int) (f : Node N → Node N) :
    ∀ (fuel : Nat) (s : TravState N),
      NodeMap.keys (travLoop nbrs f fuel s).nodes = NodeMap.keys s.nodes := by
  intro fuel
  induction fuel with
  | zero => intro s; rfl
  | succ fuel ih =>
    intro s
    rw [travLoop_succ]
    by_cases hfr : (travStep nbrs f s).frontier = []
    · rw [if_pos hfr]
      exact travProcess_keys nbrs f s.frontier s.nodes s.done []
    · rw [if_neg hfr, ih]
      exact travProcess_keys nbrs f s.frontier s.nodes s.done []

lemma travLoop_nodesWF {N : Type} (nbrs : Int → List Int) (f : Node N → Node N)
    (hf : ∀ n, (f n).id = n.id) :
    ∀ (fuel : Nat) (s : TravState N), NodesWF s.nodes →
      NodesWF (travLoop nbrs f fuel s).nodes := by
  intro fuel
  induction fuel with
  | zero => intro s h; exact h
  | succ fuel ih =>
    intro s h
    rw [travLoop_succ]
    by_cases hfr : (travStep nbrs f s).frontier = []
    · rw [if_pos hfr]
      exact travProcess_nodesWF nbrs f hf s.frontier s.nodes s.done [] h
    · rw [if_neg hfr]
      exact ih _ (travProcess_nodesWF nbrs f hf s.frontier s.nodes s.done [] h)

lemma travLoop_sound {N : Type} (nbrs : Int → List Int) (f : Node N → Node N)
    (R : Int → Prop) (hR : ∀ a, R a → ∀ b, b ∈ nbrs a → R b) :
    ∀ (fuel : Nat) (s : TravState N),
      (∀ x, x ∈ s.done → R x) → (∀ x, x ∈ s.frontier → R x) →
      ∀ x, x ∈ (travLoop nbrs f fuel s).done → R x := by
  intro fuel
  induction fuel with
  | zero => intro s hd _ x hx; exact hd x hx
  | succ fuel ih =>
    intro s hd hfrR x hx
    have hd' : ∀ y, y ∈ (travStep nbrs f s).done → R y := by
      intro y hy
      rcases travProcess_done_src nbrs f s.frontier s.nodes s.done [] hy with h | h
      · exact hd y h
      · exact hfrR y h
    have hfr' : ∀ y, y ∈ (travStep nbrs f s).frontier → R y := by
      intro y hy
      rcases travProcess_next_src nbrs f s.frontier s.nodes s.done [] hy with h | ⟨t, ht, hy'⟩
      · cases h
      · exact hR t (hfrR t ht) y hy'
    rw [travLoop_succ] at hx
    by_cases hfr : (travStep nbrs f s).frontier = []
    · rw [if_pos hfr] at hx; exact hd' x hx
    · rw [if_neg hfr] at hx; exact ih _ hd' hfr' x hx

/-- Invariant used to show every reachable identifier ends up processed:
the initial frontier and the neighbours of every processed identifier are
covered by the processed set together with the pending frontier. -/
def LoopInv {N : Type} (nbrs : Int → List Int) (init : List Int)
    (s : TravState N) : Prop :=
  (∀ x, x ∈ init → x ∈ s.done ∨ x ∈ s.frontier) ∧
  (∀ t, t ∈ s.done → ∀ p, p ∈ nbrs t → p ∈ s.done ∨ p ∈ s.frontier)

lemma travStep_inv {N : Type} (nbrs : Int → List Int) (f : Node N → Node N)
    (init : List Int) (s : TravState N) (h : LoopInv nbrs init s) :
    LoopInv nbrs init (travStep nbrs f s) := by
  obtain ⟨h1, h2⟩ := h
  constructor
  · intro x hx
    rcases h1 x hx with hd | hfr
    · exact Or.inl (travStep_done_mono nbrs f s hd)
    · exact Or.inl (travProcess_rem_done nbrs f s.frontier s.nodes s.done [] hfr)
  · intro t ht p hp
    rcases travProcess_closure nbrs f s.frontier s.nodes s.done [] ht with hold | hnew
    · rcases h2 t hold p hp with hd | hfr
      · exact Or.inl (travStep_done_mono nbrs f s hd)
      · exact Or.inl (travProcess_rem_done nbrs f s.frontier s.nodes s.done [] hfr)
    · exact hnew p hp

lemma travLoop_inv {N : Type} (nbrs : Int → List Int) (f : Node N → Node N)
    (init : List Int) :
    ∀ (fuel : Nat) (s : TravState N), LoopInv nbrs init s →
      LoopInv nbrs init (travLoop nbrs f fuel s) := by
  intro fuel
  induction fuel with
  | zero => intro s h; exact h
  | succ fuel ih =>
    intro s h
    rw [travLoop_succ]
    by_cases hfr : (travStep nbrs f s).frontier = []
    · rw [if_pos hfr]; exact travStep_inv nbrs f init s h
    · rw [if_neg hfr]; exact ih _ (travStep_inv nbrs f init s h)

lemma nodup_subset_length {l P : List Int} (hnd : l.Nodup)
    (hsub : ∀ x, x ∈ l → x ∈ P) : l.length ≤ P.length := by
  classical
  calc l.length = l.toFinset.card := (List.toFinset_card_of_nodup hnd).symm
  _ ≤ P.toFinset.card :=
      Finset.card_le_card
        (fun x hx => List.mem_toFinset.mpr (hsub x (List.mem_toFinset.mp hx)))
  _ ≤ P.length := List.toFinset_card_le P

lemma travLoop_stable {N : Type} (nbrs : Int → List Int) (f : Node N → Node N)
    (P : List Int) (hnbrs : ∀ a, ∀ b, b ∈ nbrs a → b ∈ P) :
    ∀ (fuel : Nat) (s : TravState N), s.done.Nodup →
      (∀ x, x ∈ s.done → x ∈ P) → (∀ x, x ∈ s.frontier → x ∈ P) →
      P.length + 1 ≤ fuel + s.done.length →
      (travLoop nbrs f fuel s).frontier = [] ∧
        ∀ k, travLoop nbrs f (fuel + k) s = travLoop nbrs f fuel s := by
  intro fuel
  induction fuel with
  | zero =>
    intro s hnd hdP _ hfuel
    exact absurd (nodup_subset_length hnd hdP) (by omega)
  | succ fuel ih =>
    intro s hnd hdP hfP hfuel
    have hnd' : (travStep nbrs f s).done.Nodup :=
      travProcess_done_nodup nbrs f s.frontier s.nodes s.done [] hnd
    have hdP' : ∀ x, x ∈ (travStep nbrs f s).done → x ∈ P := by
      intro x hx
      rcases travProcess_done_src nbrs f s.frontier s.nodes s.done [] hx with h | h
      · exact hdP x h
      · exact hfP x h
    have hfP' : ∀ x, x ∈ (travStep nbrs f s).frontier → x ∈ P := by
      intro x hx
      rcases travProcess_next_src nbrs f s.frontier s.nodes s.done [] hx with h | ⟨t, _, hx'⟩
      · cases h
      · exact hnbrs t x hx'
    by_cases hfr : (travStep nbrs f s).frontier = []
    · constructor
      · rw [travLoop_succ, if_pos hfr]; exact hfr
      · intro k
        have hks : fuel + 1 + k = (fuel + k) + 1 := by omega
        rw [hks, travLoop_succ, if_pos hfr, travLoop_succ, if_pos hfr]
    · have hgrow : s.done.length < (travStep nbrs f s).done.length :=
        travProcess_growth nbrs f s.frontier s.nodes s.done [] hfr
      have hfuel' : P.length + 1 ≤ fuel + (travStep nbrs f s).done.length := by omega
      obtain ⟨hfr2, hstab⟩ := ih (travStep nbrs f s) hnd' hdP' hfP' hfuel'
      constructor
      · rw [travLoop_succ, if_neg hfr]; exact hfr2
      · intro k
        have hks : fuel + 1 + k = (fuel + k) + 1 := by omega
        rw [hks, travLoop_succ, if_neg hfr, travLoop_succ, if_neg hfr, hstab k]

lemma mem_ascendInit {E : Type} {edges : List (Edge E)} {targets : List Int} {x : Int} :
    x ∈ ascendInit edges targets ↔ ∃ t, t ∈ targets ∧ x ∈ parentsOf edges t := by
  rw [ascendInit, mem_addNewAll]
  simp [List.mem_flatMap]

lemma mem_descendInit {E : Type} {edges : List (Edge E)} {targets : List Int} {x : Int} :
    x ∈ descendInit edges targets ↔ ∃ t, t ∈ targets ∧ x ∈ childrenOf edges t := by
  rw [descendInit, mem_addNewAll]
  simp [List.mem_flatMap]

lemma parentsOf_subset {E : Type} (edges : List (Edge E)) (i : Int) :
    ∀ x, x ∈ parentsOf edges i → x ∈ List.map Edge.parent edges := by
  intro x hx
  rcases List.mem_map.mp hx with ⟨e, he, hx'⟩
  exact List.mem_map.mpr ⟨e, (List.mem_filter.mp he).1, hx'⟩

lemma childrenOf_subset {E : Type} (edges : List (Edge E)) (i : Int) :
    ∀ x, x ∈ childrenOf edges i → x ∈ List.map Edge.child edges := by
  intro x hx
  rcases List.mem_map.mp hx with ⟨e, he, hx'⟩
  exact List.mem_map.mpr ⟨e, (List.mem_filter.mp he).1, hx'⟩

lemma travRun_spec {N : Type} (nbrs : Int → List Int) (f : Node N → Node N)
    (P : List Int) (hnbrs : ∀ a, ∀ b, b ∈ nbrs a → b ∈ P)
    (nodes0 : NodeMap (Node N)) (init : List Int)
    (hinitP : ∀ x, x ∈ init → x ∈ P) (targets : List Int)
    (hinit : ∀ x, x ∈ init ↔ ∃ t, t ∈ targets ∧ x ∈ nbrs t) :
    (travLoop nbrs f (P.length + 1) ⟨nodes0, [], init⟩).done.Nodup ∧
    (∀ i, i ∈ (travLoop nbrs f (P.length + 1) ⟨nodes0, [], init⟩).done ↔
      ReachesVia nbrs targets i) ∧
    (∀ i, NodeMap.get? (travLoop nbrs f (P.length + 1) ⟨nodes0, [], init⟩).nodes i =
      if i ∈ (travLoop nbrs f (P.length + 1) ⟨nodes0, [], init⟩).done
      then Option.map f (NodeMap.get? nodes0 i) else NodeMap.get? nodes0 i) ∧
    (∀ k, travLoop nbrs f (P.length + 1 + k) ⟨nodes0, [], init⟩ =
      travLoop nbrs f (P.length + 1) ⟨nodes0, [], init⟩) ∧
    (travLoop nbrs f (P.length + 1) ⟨nodes0, [], init⟩).frontier = [] := by
  obtain ⟨hempty, hstab⟩ :=
    travLoop_stable nbrs f P hnbrs (P.length + 1) ⟨nodes0, [], init⟩
      List.nodup_nil (fun x hx => absurd hx (List.not_mem_nil x))
      hinitP (by simp)
  have hnodup := travLoop_done_nodup nbrs f (P.length + 1)
    ⟨nodes0, [], init⟩ List.nodup_nil
  have hinv := travLoop_inv nbrs f init (P.length + 1) ⟨nodes0, [], init⟩
    ⟨fun x hx => Or.inr hx, fun t ht => absurd ht (List.not_mem_nil t)⟩
  refine ⟨hnodup, ?_, ?_, hstab, hempty⟩
  · intro i
    constructor
    · intro hi
      refine travLoop_sound nbrs f (ReachesVia nbrs targets) ?_ (P.length + 1)
        ⟨nodes0, [], init⟩ (fun x hx => absurd hx (List.not_mem_nil x)) ?_ i hi
      · rintro a ⟨t, ht, htg⟩ b hb
        exact ⟨t, ht, htg.tail hb⟩
      · intro x hx
        rcases (hinit x).mp hx with ⟨t, ht, hx'⟩
        exact ⟨t, ht, Relation.TransGen.single hx'⟩
    · rintro ⟨t, ht, htg⟩
      obtain ⟨hinv1, hinv2⟩ := hinv
      rw [hempty] at hinv1 hinv2
      have hinit_done : ∀ x, x ∈ init →
          x ∈ (travLoop nbrs f (P.length + 1) ⟨nodes0, [], init⟩).done := by
        intro x hx
        rcases hinv1 x hx with h | h
        · exact h
        · exact absurd h (List.not_mem_nil x)
      have hclosed : ∀ u, u ∈ (travLoop nbrs f (P.length + 1) ⟨nodes0, [], init⟩).done →
          ∀ p, p ∈ nbrs u →
            p ∈ (travLoop nbrs f (P.length + 1) ⟨nodes0, [], init⟩).done := by
        intro u hu p hp
        rcases hinv2 u hu p hp with h | h
        · exact h
        · exact absurd h (List.not_mem_nil p)
      induction htg with
      | single hb => exact hinit_done _ ((hinit _).mpr ⟨t, ht, hb⟩)
      | tail _ hb ih => exact hclosed _ ih _ hb
  · intro i
    rw [travLoop_get? nbrs f (P.length + 1) ⟨nodes0, [], init⟩ i]
    refine if_congr ?_ rfl rfl
    simp

lemma ascendantRun_spec {N E : Type} (g : Graph N E) (targets : List Int)
    (f : Node N → Node N) :
    (ascendantRun g targets f).done.Nodup ∧
    (∀ i, i ∈ (ascendantRun g targets f).done ↔
      ReachesVia (parentsOf g.edges) targets i) ∧
    (∀ i, NodeMap.get? (ascendantRun g targets f).nodes i =
      if i ∈ (ascendantRun g targets f).done
      then Option.map f (NodeMap.get? g.nodes i) else NodeMap.get? g.nodes i) ∧
    (∀ k, travLoop (parentsOf g.edges) f (g.edges.length + 1 + k)
        ⟨g.nodes, [], ascendInit g.edges targets⟩ = ascendantRun g targets f) ∧
    (ascendantRun g targets f).frontier = [] := by
  have h := travRun_spec (parentsOf g.edges) f (List.map Edge.parent g.edges)
    (fun a b hb => parentsOf_subset g.edges a b hb) g.nodes
    (ascendInit g.edges targets)
    (fun x hx => by
      rcases mem_ascendInit.mp hx with ⟨t, _, hx2⟩
      exact parentsOf_subset g.edges t x hx2)
    targets (fun x => mem_ascendInit)
  rw [List.length_map] at h
  exact h

lemma descendantRun_spec {N E : Type} (g : Graph N E) (targets : List Int)
    (f : Node N → Node N) :
    (descendantRun g targets f).done.Nodup ∧
    (∀ i, i ∈ (descendantRun g targets f).done ↔
      ReachesVia (childrenOf g.edges) targets i) ∧
    (∀ i, NodeMap.get? (descendantRun g targets f).nodes i =
      if i ∈ (descendantRun g targets f).done
      then Option.map f (NodeMap.get? g.nodes i) else NodeMap.get? g.nodes i) ∧
    (∀ k, travLoop (childrenOf g.edges) f (g.edges.length + 1 + k)
        ⟨g.nodes, [], descendInit g.edges targets⟩ = descendantRun g targets f) ∧
    (descendantRun g targets f).frontier = [] := by
  have h := travRun_spec (childrenOf g.edges) f (List.map Edge.child g.edges)
    (fun a b hb => childrenOf_subset g.edges a b hb) g.nodes
    (descendInit g.edges targets)
    (fun x hx => by
      rcases mem_descendInit.mp hx with ⟨t, _, hx2⟩
      exact childrenOf_subset g.edges t x hx2)
    targets (fun x => mem_descendInit)
  rw [List.length_map] at h
  exact h

/-- C2: for every graph (cycles and duplicate edges included),
`map_ascendant` and `map_descendant` terminate — the fuelled loop is
already stable at the fuel the methods pass, so any additional fuel gives
the same result — and the processed (`done`) set has no duplicates and
consists exactly of the identifiers reachable from the seed set by one or
more parent (resp. child) hops; the mutation `f` is applied exactly once
to each node whose identifier was processed and to no other node. -/
theorem traversal_terminates_and_visits_once {N E : Type} (g : Graph N E)
    (targets : List Int) (f : Node N → Node N) :
    ((ascendantRun g targets f).done.Nodup ∧
     (∀ i, i ∈ (ascendantRun g targets f).done ↔
       ReachesVia (parentsOf g.edges) targets i) ∧
     (∀ i, NodeMap.get? (g.map_ascendant targets f).nodes i =
       if i ∈ (ascendantRun g targets f).done
       then Option.map f (NodeMap.get? g.nodes i) else NodeMap.get? g.nodes i) ∧
     (∀ k, travLoop (parentsOf g.edges) f (g.edges.length + 1 + k)
         ⟨g.nodes, [], ascendInit g.edges targets⟩ = ascendantRun g targets f)) ∧
    ((descendantRun g targets f).done.Nodup ∧
     (∀ i, i ∈ (descendantRun g targets f).done ↔
       ReachesVia (childrenOf g.edges) targets i) ∧
     (∀ i, NodeMap.get? (g.map_descendant targets f).nodes i =
       if i ∈ (descendantRun g targets f).done
       then Option.map f (NodeMap.get? g.nodes i) else NodeMap.get? g.nodes i) ∧
     (∀ k, travLoop (childrenOf g.edges) f (g.edges.length + 1 + k)
         ⟨g.nodes, [], descendInit g.edges targets⟩ = descendantRun g targets f)) := by
  obtain ⟨ha1, ha2, ha3, ha4, _⟩ := ascendantRun_spec g targets f
  obtain ⟨hd1, hd2, hd3, hd4, _⟩ := descendantRun_spec g targets f
  exact ⟨⟨ha1, ha2, ha3, ha4⟩, ⟨hd1, hd2, hd3, hd4⟩⟩

/-- C5: a node without a domain-data payload fails any condition that
specifies a class, subclass or name pattern, whatever the patterns are,
and otherwise (identifier-only or empty condition) matches exactly when
the identifier condition, evaluated on the identifier's decimal string,
holds. -/
theorem payloadless_node_match (c : CompiledNodeFilterCondition) (n : FbxNode)
    (h : n.data = none) :
    c.is_match n =
      (!(c.«class».isSome || c.subclass.isSome || c.name.isSome) &&
        (match c.uid with
         | some re => re (toString n.id)
         | none => true)) := by
  rw [CompiledNodeFilterCondition.is_match, h]

/-- Witness for `payloadless_node_match`: a payload-less node with
identifier 7 and a condition with a class pattern whose matcher accepts
everything still fails the match, while the identifier-only condition
decides it. -/
theorem payloadless_node_match_witness :
    CompiledNodeFilterCondition.is_match
      { «class» := some (fun _ => true), subclass := none, name := none,
        uid := none }
      { id := 7, visible := true, styles := [], data := none } = false ∧
    CompiledNodeFilterCondition.is_match
      { «class» := none, subclass := none, name := none,
        uid := some (fun s => s = "7") }
      { id := 7, visible := true, styles := [], data := none } = true := by
  constructor
  · have h := payloadless_node_match
      { «class» := some (fun _ => true), subclass := none, name := none,
        uid := none }
      { id := 7, visible := true, styles := [], data := none } rfl
    rw [h]
    rfl
  · have h := payloadless_node_match
      { «class» := none, subclass := none, name := none,
        uid := some (fun s => s = "7") }
      { id := 7, visible := true, styles := [], data := none } rfl
    rw [h]
    decide

/-- C6: the compiled edge condition matches exactly when every specified
sub-condition holds: a source (resp. destination) sub-condition requires
the parent (resp. child) identifier to resolve to a node in the mapping
and that node to satisfy the sub-condition's matcher, and a
connection-type (resp. property-name) pattern requires the edge's field to
be present and to match. -/
theorem edge_match_iff (c : CompiledEdgeFilterCondition) (e : FbxEdge)
    (nodes : NodeMap FbxNode) :
    c.is_match e nodes = true ↔
      ((∀ mc, c.src_condition = some mc →
          ∃ src, NodeMap.get? nodes e.parent = some src ∧ mc.is_match src = true) ∧
       (∀ mc, c.dst_condition = some mc →
          ∃ dst, NodeMap.get? nodes e.child = some dst ∧ mc.is_match dst = true) ∧
       (∀ re, c.connection_type = some re →
          ∃ ct, e.data.connection_type = some ct ∧ re ct = true) ∧
       (∀ re, c.property_name = some re →
          ∃ pn, e.data.property_name = some pn ∧ re pn = true)) := by
  rw [CompiledEdgeFilterCondition.is_match]
  cases hs : c.src_condition <;> cases hd : c.dst_condition <;>
    cases hct : c.connection_type <;> cases hpn : c.property_name <;>
    cases hgp : NodeMap.get? nodes e.parent <;>
    cases hgc : NodeMap.get? nodes e.child <;>
    cases hect : e.data.connection_type <;>
    cases hepn : e.data.property_name <;>
    simp [hs, hd, hct, hpn, hgp, hgc, hect, hepn, and_assoc]

/-- C7 counterexample: the claim says an embedded double quote is doubled
(`"` becomes `""`), but `style_escape` turns `"` into backslash-quote
(`\"`), which differs from the doubled form. -/
theorem style_escape_not_doubling :
    style_escape "\"" = "\\\"" ∧ style_escape "\"" ≠ "\"\"" := by
  constructor
  · rfl
  · decide

/-- C7 as amended: when style keys and values are emitted, every embedded
double-quote character is escaped by prefixing a backslash (the string
`"` becomes `\"`), and no other character is altered: `style_escape` is
the unique string homomorphism with that behaviour on single
characters. -/
theorem style_escape_characterization :
    (∀ s t : String, style_escape (s ++ t) = style_escape s ++ style_escape t) ∧
    (style_escape (String.mk ['"']) = String.mk ['\\', '"']) ∧
    (∀ c : Char, c ≠ '"' → style_escape (String.mk [c]) = String.mk [c]) := by
  refine ⟨?_, rfl, ?_⟩
  · intro s t
    obtain ⟨ls⟩ := s
    obtain ⟨lt⟩ := t
    show String.mk ((ls ++ lt).flatMap _) = String.mk (ls.flatMap _ ++ lt.flatMap _)
    rw [List.flatMap_append]
  · intro c hc
    show String.mk (List.flatMap [c] _) = String.mk [c]
    simp [hc]

/-- Witness for `style_escape_characterization`: the letter `a` is not a
quote and passes through unchanged. -/
theorem style_escape_characterization_witness :
    style_escape (String.mk ['a']) = String.mk ['a'] :=
  style_escape_characterization.2.2 'a' (by decide)

/-- C4 counterexample: an edge both of whose endpoints are unregistered is
omitted by `output_visible_nodes` even when the configurable default
(`print_unregistered_nodes` / `show_implicit_nodes`) is true, although
under the claim's reading both endpoints count as visible. -/
theorem edge_both_endpoints_unregistered_counterexample :
    (Graph.edge_is_printed
      ({ name := "g", graph_styles := [], node_styles := [], edge_styles := [],
         nodes := [],
         edges := [{ parent := 1, child := 2, styles := [],
                     data := { connection_type := none, property_name := none } }] }
        : FbxGraph)
      true
      { parent := 1, child := 2, styles := [],
        data := { connection_type := none, property_name := none } } = false) ∧
    (endpointVisibleSpec
      ({ name := "g", graph_styles := [], node_styles := [], edge_styles := [],
         nodes := [],
         edges := [{ parent := 1, child := 2, styles := [],
                     data := { connection_type := none, property_name := none } }] }
        : FbxGraph) true 1 = true) ∧
    (endpointVisibleSpec
      ({ name := "g", graph_styles := [], node_styles := [], edge_styles := [],
         nodes := [],
         edges := [{ parent := 1, child := 2, styles := [],
                     data := { connection_type := none, property_name := none } }] }
        : FbxGraph) true 2 = true) ∧
    (Graph.output_visible_nodes
      ({ name := "g", graph_styles := [], node_styles := [], edge_styles := [],
         nodes := [],
         edges := [{ parent := 1, child := 2, styles := [],
                     data := { connection_type := none, property_name := none } }] }
        : FbxGraph) true = ["digraph \"g\" \x7b", "\x7d"]) := by
  refine ⟨rfl, rfl, rfl, rfl⟩

/-- C4 as amended: `output_visible_nodes` emits an edge if and only if
both endpoints are visible — an unregistered endpoint counting as visible
exactly when the configurable default is true — and, additionally, at
least one of the two endpoints is registered: an edge both of whose
endpoint identifiers have no corresponding node is always omitted. -/
theorem edge_is_printed_iff {N E : Type} (g : Graph N E) (flag : Bool) (e : Edge E) :
    g.edge_is_printed flag e =
      (((NodeMap.get? g.nodes e.parent).isSome ||
          (NodeMap.get? g.nodes e.child).isSome) &&
        endpointVisibleSpec g flag e.parent &&
        endpointVisibleSpec g flag e.child) := by
  rw [Graph.edge_is_printed]
  cases hp : NodeMap.get? g.nodes e.parent <;>
    cases hc : NodeMap.get? g.nodes e.child <;>
    simp [Graph.endpoint_visibility, endpointVisibleSpec, hp, hc, Node.is_visible,
      Bool.and_assoc]

/-- C9: unrecognized or underspecified operation inputs are silent no-ops:
an unknown node or edge operation name leaves the entity unchanged, an
unknown hide/show target token leaves the graph unchanged, an
`update-attr` argument group with fewer than two elements is skipped, and
removing an absent style key leaves the style mapping unchanged. -/
theorem unrecognized_inputs_are_noops :
    (∀ (op : NodeOperation) (id : Int) (g : FbxGraph),
      op.name ≠ "update-attr" → op.name ≠ "remove-attr" →
      op.name ≠ "hide" → op.name ≠ "show" → applyNodeOp id g op = g) ∧
    (∀ (op : EdgeOperation) (e : FbxEdge),
      op.name ≠ "update-attr" → op.name ≠ "remove-attr" → applyEdgeOp e op = e) ∧
    (∀ (b : Bool) (id : Int) (g : FbxGraph) (t : String),
      t ≠ "self" → t ≠ "ascendant" → t ≠ "descendant" →
      t ≠ "parents" → t ≠ "children" → applyHideShowTarget b id g t = g) ∧
    (∀ (id : Int) (g : FbxGraph) (arg : List String) (args : List (List String)),
      arg.length < 2 →
      applyNodeOp id g { name := "update-attr", args := arg :: args } =
        applyNodeOp id g { name := "update-attr", args := args }) ∧
    (∀ (st : Styles) (k : String), Styles.get? st k = none →
      Styles.remove st k = st) := by
  refine ⟨?_, ?_, ?_, ?_, ?_⟩
  · intro op id g h1 h2 h3 h4
    rw [applyNodeOp, if_neg h1, if_neg h2, if_neg (not_or.mpr ⟨h3, h4⟩)]
  · intro op e h1 h2
    rw [applyEdgeOp, if_neg h1, if_neg h2]
  · intro b id g t h1 h2 h3 h4 h5
    rw [applyHideShowTarget, if_neg h1, if_neg h2, if_neg h3, if_neg h4, if_neg h5]
  · intro id g arg args harg
    cases arg with
    | nil => rfl
    | cons a tl =>
      cases tl with
      | nil => rfl
      | cons b tl2 =>
        exfalso
        simp [List.length_cons] at harg
        omega
  · intro st k h
    have hfind : List.find? (fun p => p.1 = k) st = none := by
      rw [Styles.get?] at h
      cases hfind : List.find? (fun p => p.1 = k) st with
      | none => rfl
      | some v => rw [hfind] at h; simp at h
    have hall := List.find?_eq_none.mp hfind
    rw [Styles.remove]
    apply List.filter_eq_self.mpr
    intro a ha
    have := hall a ha
    simpa using this

/-- Witness for `unrecognized_inputs_are_noops`: each no-op conjunct at a
concrete input (unknown operation name, unknown target token, one-element
argument group, absent style key). -/
theorem unrecognized_inputs_are_noops_witness :
    (applyNodeOp 0
      { name := "g", graph_styles := [], node_styles := [], edge_styles := [],
        nodes := [], edges := [] }
      { name := "frobnicate", args := [] } =
      { name := "g", graph_styles := [], node_styles := [], edge_styles := [],
        nodes := [], edges := [] }) ∧
    (applyEdgeOp
      { parent := 1, child := 2, styles := [],
        data := { connection_type := none, property_name := none } }
      { name := "frobnicate", args := [] } =
      { parent := 1, child := 2, styles := [],
        data := { connection_type := none, property_name := none } }) ∧
    (applyHideShowTarget true 0
      { name := "g", graph_styles := [], node_styles := [], edge_styles := [],
        nodes := [], edges := [] } "sibling" =
      { name := "g", graph_styles := [], node_styles := [], edge_styles := [],
        nodes := [], edges := [] }) ∧
    (applyNodeOp 0
      { name := "g", graph_styles := [], node_styles := [], edge_styles := [],
        nodes := [], edges := [] }
      { name := "update-attr", args := [["only"]] } =
      applyNodeOp 0
        { name := "g", graph_styles := [], node_styles := [], edge_styles := [],
          nodes := [], edges := [] }
        { name := "update-attr", args := [] }) ∧
    (Styles.remove [("a", "b")] "z" = [("a", "b")]) :=
  ⟨unrecognized_inputs_are_noops.1 { name := "frobnicate", args := [] } 0 _
      (by decide) (by decide) (by decide) (by decide),
   unrecognized_inputs_are_noops.2.1 { name := "frobnicate", args := [] } _
      (by decide) (by decide),
   unrecognized_inputs_are_noops.2.2.1 true 0 _ "sibling"
      (by decide) (by decide) (by decide) (by decide) (by decide),
   unrecognized_inputs_are_noops.2.2.2.1 0 _ ["only"] [] (by decide),
   unrecognized_inputs_are_noops.2.2.2.2 [("a", "b")] "z" (by decide)⟩

/-- Forget the visibility flag of a node (used to state that an operation
changes nothing but visibility). -/
def eraseVisible {T : Type} (n : Node T) : Node T :=
  { n with visible := true }

lemma proj_update {N : Type} {β : Type} (π : Node N → β) {f : Node N → Node N}
    (hπ : ∀ n, π (f n) = π n) (m : NodeMap (Node N)) (k i : Int) :
    Option.map π (NodeMap.get? (NodeMap.update m k f) i) =
      Option.map π (NodeMap.get? m i) := by
  rw [NodeMap.get?_update]
  by_cases h : i = k
  · subst h
    rw [if_pos rfl]
    cases NodeMap.get? m i <;> simp [hπ]
  · rw [if_neg h]

lemma proj_foldl_update {N : Type} {β : Type} (π : Node N → β) {f : Node N → Node N}
    (hπ : ∀ n, π (f n) = π n) :
    ∀ (l : List Int) (m : NodeMap (Node N)) (i : Int),
      Option.map π (NodeMap.get?
        (List.foldl (fun m t => NodeMap.update m t f) m l) i) =
      Option.map π (NodeMap.get? m i) := by
  intro l
  induction l with
  | nil => intro m i; rfl
  | cons t l ih =>
    intro m i
    rw [List.foldl_cons, ih, proj_update π hπ]

lemma proj_travLoop {N : Type} {β : Type} (π : Node N → β) (nbrs : Int → List Int)
    {f : Node N → Node N} (hπ : ∀ n, π (f n) = π n) (fuel : Nat) (s : TravState N)
    (i : Int) :
    Option.map π (NodeMap.get? (travLoop nbrs f fuel s).nodes i) =
      Option.map π (NodeMap.get? s.nodes i) := by
  rw [travLoop_get? nbrs f fuel s i]
  by_cases hc : i ∈ (travLoop nbrs f fuel s).done ∧ ¬ i ∈ s.done
  · rw [if_pos hc]
    cases NodeMap.get? s.nodes i <;> simp [hπ]
  · rw [if_neg hc]

/-- Relation expressing that a graph differs from another at most in the
visibility flags of its nodes. -/
def VisOnlyRel {N E : Type} (g g' : Graph N E) : Prop :=
  g'.name = g.name ∧ g'.graph_styles = g.graph_styles ∧
  g'.node_styles = g.node_styles ∧ g'.edge_styles = g.edge_styles ∧
  g'.edges = g.edges ∧
  ∀ i, Option.map eraseVisible (NodeMap.get? g'.nodes i) =
       Option.map eraseVisible (NodeMap.get? g.nodes i)

lemma visOnlyRel_refl {N E : Type} (g : Graph N E) : VisOnlyRel g g :=
  ⟨rfl, rfl, rfl, rfl, rfl, fun _ => rfl⟩

lemma visOnlyRel_trans {N E : Type} {g1 g2 g3 : Graph N E}
    (h12 : VisOnlyRel g1 g2) (h23 : VisOnlyRel g2 g3) : VisOnlyRel g1 g3 :=
  ⟨h23.1.trans h12.1, h23.2.1.trans h12.2.1, h23.2.2.1.trans h12.2.2.1,
   h23.2.2.2.1.trans h12.2.2.2.1, h23.2.2.2.2.1.trans h12.2.2.2.2.1,
   fun i => (h23.2.2.2.2.2 i).trans (h12.2.2.2.2.2 i)⟩

lemma visOnlyRel_hideShowTarget (b : Bool) (id : Int) (g : FbxGraph) (t : String) :
    VisOnlyRel g (applyHideShowTarget b id g t) := by
  have hπ : ∀ n : FbxNode, eraseVisible { n with visible := b } = eraseVisible n :=
    fun n => rfl
  rw [applyHideShowTarget]
  by_cases h1 : t = "self"
  · rw [if_pos h1]
    exact ⟨rfl, rfl, rfl, rfl, rfl, fun i => proj_update eraseVisible hπ g.nodes id i⟩
  · rw [if_neg h1]
    by_cases h2 : t = "ascendant"
    · rw [if_pos h2]
      exact ⟨rfl, rfl, rfl, rfl, rfl,
        fun i => proj_travLoop eraseVisible (parentsOf g.edges) hπ _ _ i⟩
    · rw [if_neg h2]
      by_cases h3 : t = "descendant"
      · rw [if_pos h3]
        exact ⟨rfl, rfl, rfl, rfl, rfl,
          fun i => proj_travLoop eraseVisible (childrenOf g.edges) hπ _ _ i⟩
      · rw [if_neg h3]
        by_cases h4 : t = "parents"
        · rw [if_pos h4]
          exact ⟨rfl, rfl, rfl, rfl, rfl,
            fun i => proj_foldl_update eraseVisible hπ _ g.nodes i⟩
        · rw [if_neg h4]
          by_cases h5 : t = "children"
          · rw [if_pos h5]
            exact ⟨rfl, rfl, rfl, rfl, rfl,
              fun i => proj_foldl_update eraseVisible hπ _ g.nodes i⟩
          · rw [if_neg h5]
            exact visOnlyRel_refl g

lemma visOnlyRel_foldl_targets (b : Bool) (id : Int) :
    ∀ (l : List String) (g : FbxGraph),
      VisOnlyRel g (List.foldl (applyHideShowTarget b id) g l) := by
  intro l
  induction l with
  | nil => intro g; exact visOnlyRel_refl g
  | cons t l ih =>
    intro g
    rw [List.foldl_cons]
    exact visOnlyRel_trans (visOnlyRel_hideShowTarget b id g t)
      (ih (applyHideShowTarget b id g t))

lemma visOnlyRel_applyNodeOp {op : NodeOperation}
    (h : op.name = "hide" ∨ op.name = "show") (id : Int) (g : FbxGraph) :
    VisOnlyRel g (applyNodeOp id g op) := by
  have h1 : op.name ≠ "update-attr" := by rcases h with h | h <;> rw [h] <;> decide
  have h2 : op.name ≠ "remove-attr" := by rcases h with h | h <;> rw [h] <;> decide
  rw [applyNodeOp, if_neg h1, if_neg h2, if_pos h]
  cases op.args.head? with
  | none => exact visOnlyRel_refl g
  | some args0 => exact visOnlyRel_foldl_targets _ id args0 g

/-- C8: a hide or show node operation (whatever its target tokens) changes
only node visibility flags: the graph's name, the three style-default
mappings and the edges are untouched, and every node keeps its identifier,
style mapping and data; consequently applying `show self` and then
`hide self` (or the reverse) leaves every node identical to its original
state except possibly the visibility flag. -/
theorem hide_show_changes_only_visibility :
    (∀ (op : NodeOperation) (id : Int) (g : FbxGraph),
      op.name = "hide" ∨ op.name = "show" →
      VisOnlyRel g (applyNodeOp id g op)) ∧
    (∀ (id : Int) (g : FbxGraph),
      VisOnlyRel g (applyNodeOp id
        (applyNodeOp id g { name := "show", args := [["self"]] })
        { name := "hide", args := [["self"]] }) ∧
      VisOnlyRel g (applyNodeOp id
        (applyNodeOp id g { name := "hide", args := [["self"]] })
        { name := "show", args := [["self"]] })) := by
  constructor
  · intro op id g h
    exact visOnlyRel_applyNodeOp h id g
  · intro id g
    constructor
    · exact visOnlyRel_trans
        (visOnlyRel_applyNodeOp (Or.inr rfl) id g)
        (visOnlyRel_applyNodeOp (Or.inl rfl) id _)
    · exact visOnlyRel_trans
        (visOnlyRel_applyNodeOp (Or.inl rfl) id g)
        (visOnlyRel_applyNodeOp (Or.inr rfl) id _)

/-- Witness for `hide_show_changes_only_visibility`: hiding node 1 (target
`self`) in a one-node graph leaves the edges and the node's
visibility-erased image unchanged. -/
theorem hide_show_changes_only_visibility_witness :
    (applyNodeOp 1
      { name := "g", graph_styles := [], node_styles := [], edge_styles := [],
        nodes := [(1, { id := 1, visible := true, styles := [("color", "red")],
                        data := none })], edges := [] }
      { name := "hide", args := [["self"]] }).edges = [] ∧
    Option.map eraseVisible (NodeMap.get?
      (applyNodeOp 1
        { name := "g", graph_styles := [], node_styles := [], edge_styles := [],
          nodes := [(1, { id := 1, visible := true, styles := [("color", "red")],
                          data := none })], edges := [] }
        { name := "hide", args := [["self"]] }).nodes 1) =
    some { id := 1, visible := true, styles := [("color", "red")], data := none } :=
  ⟨(hide_show_changes_only_visibility.1
      { name := "hide", args := [["self"]] } 1 _ (Or.inl rfl)).2.2.2.2.1,
   ((hide_show_changes_only_visibility.1
      { name := "hide", args := [["self"]] } 1 _ (Or.inl rfl)).2.2.2.2.2 1).trans rfl⟩

lemma keys_foldl_update {N : Type} {f : Node N → Node N} :
    ∀ (l : List Int) (m : NodeMap (Node N)),
      NodeMap.keys (List.foldl (fun m t => NodeMap.update m t f) m l) =
        NodeMap.keys m := by
  intro l
  induction l with
  | nil => intro m; rfl
  | cons t l ih =>
    intro m
    rw [List.foldl_cons, ih, NodeMap.keys_update]

lemma nodesWF_foldl_update {N : Type} {f : Node N → Node N}
    (hf : ∀ n, (f n).id = n.id) :
    ∀ (l : List Int) (m : NodeMap (Node N)), NodesWF m →
      NodesWF (List.foldl (fun m t => NodeMap.update m t f) m l) := by
  intro l
  induction l with
  | nil => intro m hm; exact hm
  | cons t l ih =>
    intro m hm
    rw [List.foldl_cons]
    exact ih _ (NodesWF_update hf hm)

/-- Relation expressing that a graph has the same structure as another:
same node keys, same node identifiers, well-formedness of the nodes
mapping preserved, and the same edge (parent, child) sequence. -/
def StructRel {N E : Type} (g g' : Graph N E) : Prop :=
  NodeMap.keys g'.nodes = NodeMap.keys g.nodes ∧
  (∀ i, Option.map Node.id (NodeMap.get? g'.nodes i) =
        Option.map Node.id (NodeMap.get? g.nodes i)) ∧
  (NodesWF g.nodes → NodesWF g'.nodes) ∧
  List.map (fun e => (e.parent, e.child)) g'.edges =
    List.map (fun e => (e.parent, e.child)) g.edges

lemma structRel_refl {N E : Type} (g : Graph N E) : StructRel g g :=
  ⟨rfl, fun _ => rfl, id, rfl⟩

lemma structRel_trans {N E : Type} {g1 g2 g3 : Graph N E}
    (h12 : StructRel g1 g2) (h23 : StructRel g2 g3) : StructRel g1 g3 :=
  ⟨h23.1.trans h12.1, fun i => (h23.2.1 i).trans (h12.2.1 i),
   fun hw => h23.2.2.1 (h12.2.2.1 hw), h23.2.2.2.trans h12.2.2.2⟩

lemma structRel_foldl {α : Type} {F : FbxGraph → α → FbxGraph}
    (h : ∀ g a, StructRel g (F g a)) :
    ∀ (l : List α) (g : FbxGraph), StructRel g (List.foldl F g l) := by
  intro l
  induction l with
  | nil => intro g; exact structRel_refl g
  | cons a l ih =>
    intro g
    rw [List.foldl_cons]
    exact structRel_trans (h g a) (ih (F g a))

lemma structRel_updateNodes {g : FbxGraph} {k : Int} {f : FbxNode → FbxNode}
    (hf : ∀ n, (f n).id = n.id) :
    StructRel g { g with nodes := NodeMap.update g.nodes k f } :=
  ⟨NodeMap.keys_update g.nodes k f, fun i => proj_update Node.id hf g.nodes k i,
   fun hw => NodesWF_update hf hw, rfl⟩

lemma structRel_hideShowTarget (b : Bool) (id : Int) (g : FbxGraph) (t : String) :
    StructRel g (applyHideShowTarget b id g t) := by
  have hf : ∀ n : FbxNode, ({ n with visible := b } : FbxNode).id = n.id :=
    fun n => rfl
  rw [applyHideShowTarget]
  by_cases h1 : t = "self"
  · rw [if_pos h1]
    exact structRel_updateNodes hf
  · rw [if_neg h1]
    by_cases h2 : t = "ascendant"
    · rw [if_pos h2]
      exact ⟨travLoop_keys _ _ _ _, fun i => proj_travLoop Node.id _ hf _ _ i,
        fun hw => travLoop_nodesWF _ _ hf _ _ hw, rfl⟩
    · rw [if_neg h2]
      by_cases h3 : t = "descendant"
      · rw [if_pos h3]
        exact ⟨travLoop_keys _ _ _ _, fun i => proj_travLoop Node.id _ hf _ _ i,
          fun hw => travLoop_nodesWF _ _ hf _ _ hw, rfl⟩
      · rw [if_neg h3]
        by_cases h4 : t = "parents"
        · rw [if_pos h4]
          exact ⟨keys_foldl_update _ _, fun i => proj_foldl_update Node.id hf _ _ i,
            fun hw => nodesWF_foldl_update hf _ _ hw, rfl⟩
        · rw [if_neg h4]
          by_cases h5 : t = "children"
          · rw [if_pos h5]
            exact ⟨keys_foldl_update _ _, fun i => proj_foldl_update Node.id hf _ _ i,
              fun hw => nodesWF_foldl_update hf _ _ hw, rfl⟩
          · rw [if_neg h5]
            exact structRel_refl g

lemma structRel_applyNodeOp (id : Int) (g : FbxGraph) (op : NodeOperation) :
    StructRel g (applyNodeOp id g op) := by
  rw [applyNodeOp]
  by_cases h1 : op.name = "update-attr"
  · rw [if_pos h1]
    refine structRel_foldl ?_ op.args g
    intro g arg
    cases arg with
    | nil => exact structRel_refl g
    | cons a tl =>
      cases tl with
      | nil => exact structRel_refl g
      | cons b tl2 => exact structRel_updateNodes (fun n => rfl)
  · rw [if_neg h1]
    by_cases h2 : op.name = "remove-attr"
    · rw [if_pos h2]
      cases op.args.head? with
      | none => exact structRel_refl g
      | some args0 =>
        refine structRel_foldl ?_ args0 g
        intro g name
        exact structRel_updateNodes (fun n => rfl)
    · rw [if_neg h2]
      by_cases h3 : op.name = "hide" ∨ op.name = "show"
      · rw [if_pos h3]
        cases op.args.head? with
        | none => exact structRel_refl g
        | some args0 =>
          exact structRel_foldl (fun g t => structRel_hideShowTarget _ id g t) args0 g
      · rw [if_neg h3]
        exact structRel_refl g

lemma structRel_apply_node_operations (fs : Filters) (id : Int) (g : FbxGraph)
    (ops : List String) : StructRel g (fs.apply_node_operations id g ops) := by
  rw [Filters.apply_node_operations]
  refine structRel_foldl ?_ _ g
  intro g group
  exact structRel_foldl (fun g op => structRel_applyNodeOp id g op) group g

lemma structRel_applyNodeRules (fs : Filters)
    (conds : List (CompiledNodeFilterCondition × List String)) (g : FbxGraph) :
    StructRel g (applyNodeRules fs g conds) := by
  rw [applyNodeRules]
  refine structRel_foldl ?_ conds g
  intro g rule
  rw [applyNodeRule]
  exact structRel_foldl
    (fun g uid => structRel_apply_node_operations fs uid g rule.2) _ g

lemma applyEdgeOp_shape (e : FbxEdge) (op : EdgeOperation) :
    (applyEdgeOp e op).parent = e.parent ∧ (applyEdgeOp e op).child = e.child := by
  rw [applyEdgeOp]
  by_cases h1 : op.name = "update-attr"
  · rw [if_pos h1]
    have : ∀ (args : List (List String)) (e : FbxEdge),
        (List.foldl
          (fun e arg =>
            match arg with
            | name0 :: value0 :: _ =>
              { e with styles := Styles.insert e.styles name0 value0 }
            | _ => e) e args).parent = e.parent ∧
        (List.foldl
          (fun e arg =>
            match arg with
            | name0 :: value0 :: _ =>
              { e with styles := Styles.insert e.styles name0 value0 }
            | _ => e) e args).child = e.child := by
      intro args
      induction args with
      | nil => intro e; exact ⟨rfl, rfl⟩
      | cons a tl ih =>
        intro e
        rw [List.foldl_cons]
        refine ⟨(ih _).1.trans ?_, (ih _).2.trans ?_⟩ <;>
          cases a with
          | nil => rfl
          | cons x xs => cases xs with
            | nil => rfl
            | cons y ys => rfl
    exact this op.args e
  · rw [if_neg h1]
    by_cases h2 : op.name = "remove-attr"
    · rw [if_pos h2]
      cases op.args.head? with
      | none => exact ⟨rfl, rfl⟩
      | some args0 =>
        have : ∀ (args0 : List String) (e : FbxEdge),
            (List.foldl
              (fun e name => { e with styles := Styles.remove e.styles name })
              e args0).parent = e.parent ∧
            (List.foldl
              (fun e name => { e with styles := Styles.remove e.styles name })
              e args0).child = e.child := by
          intro args0
          induction args0 with
          | nil => intro e; exact ⟨rfl, rfl⟩
          | cons a tl ih => intro e; rw [List.foldl_cons]; exact ih _
        exact this args0 e
    · rw [if_neg h2]
      exact ⟨rfl, rfl⟩

lemma apply_edge_operation_shape (fs : Filters) (e : FbxEdge) (ops : List String) :
    (fs.apply_edge_operation e ops).parent = e.parent ∧
    (fs.apply_edge_operation e ops).child = e.child := by
  rw [Filters.apply_edge_operation]
  have : ∀ (groups : List (List EdgeOperation)) (e : FbxEdge),
      (List.foldl (fun e group => List.foldl applyEdgeOp e group) e groups).parent
        = e.parent ∧
      (List.foldl (fun e group => List.foldl applyEdgeOp e group) e groups).child
        = e.child := by
    intro groups
    induction groups with
    | nil => intro e; exact ⟨rfl, rfl⟩
    | cons gr tl ih =>
      intro e
      rw [List.foldl_cons]
      have hgr : ∀ (gr : List EdgeOperation) (e : FbxEdge),
          (List.foldl applyEdgeOp e gr).parent = e.parent ∧
          (List.foldl applyEdgeOp e gr).child = e.child := by
        intro gr
        induction gr with
        | nil => intro e; exact ⟨rfl, rfl⟩
        | cons op tl2 ih2 =>
          intro e
          rw [List.foldl_cons]
          exact ⟨(ih2 _).1.trans (applyEdgeOp_shape e op).1,
                 (ih2 _).2.trans (applyEdgeOp_shape e op).2⟩
      exact ⟨(ih _).1.trans (hgr gr e).1, (ih _).2.trans (hgr gr e).2⟩
  exact this _ e

lemma structRel_applyEdgeRules (fs : Filters)
    (conds : List (CompiledEdgeFilterCondition × List String)) (g : FbxGraph) :
    StructRel g (applyEdgeRules fs g conds) := by
  rw [applyEdgeRules]
  refine structRel_foldl ?_ conds g
  intro g rule
  rw [applyEdgeRule]
  refine ⟨rfl, fun _ => rfl, id, ?_⟩
  rw [List.map_map]
  apply List.map_congr_left
  intro e _
  by_cases h : rule.1.is_match e g.nodes
  · simp only [Function.comp_apply, h, if_pos]
    exact Prod.ext ((apply_edge_operation_shape fs e rule.2).1)
      ((apply_edge_operation_shape fs e rule.2).2)
  · simp [h]

lemma structRel_copyOverlays (fs : Filters) (g : FbxGraph) :
    StructRel g (copyOverlays fs g) :=
  ⟨rfl, fun _ => rfl, id, rfl⟩

lemma apply_ok_eq {fs : Filters} {rnew : RegexNew} {g g' : FbxGraph}
    (h : fs.apply rnew g = Except.ok g') :
    ∃ nconds econds, compileNodeFilters rnew fs = Except.ok nconds ∧
      compileEdgeFilters rnew fs = Except.ok econds ∧
      g' = applyEdgeRules fs (applyNodeRules fs (copyOverlays fs g) nconds) econds := by
  rw [Filters.apply] at h
  cases hcn : compileNodeFilters rnew fs with
  | error e => rw [hcn] at h; simp at h
  | ok nconds =>
    rw [hcn] at h
    cases hce : compileEdgeFilters rnew fs with
    | error e => rw [hce] at h; simp at h
    | ok econds =>
      rw [hce] at h
      exact ⟨nconds, econds, rfl, rfl, (Except.ok.inj h).symm⟩

lemma apply_error_eq {fs : Filters} {rnew : RegexNew} {g g' : FbxGraph}
    (h : fs.apply rnew g = Except.error g') :
    (∃ e, compileNodeFilters rnew fs = Except.error e ∧ g' = copyOverlays fs g) ∨
    (∃ nconds e, compileNodeFilters rnew fs = Except.ok nconds ∧
      compileEdgeFilters rnew fs = Except.error e ∧
      g' = applyNodeRules fs (copyOverlays fs g) nconds) := by
  rw [Filters.apply] at h
  cases hcn : compileNodeFilters rnew fs with
  | error e =>
    rw [hcn] at h
    exact Or.inl ⟨e, rfl, (Except.error.inj h).symm⟩
  | ok nconds =>
    rw [hcn] at h
    cases hce : compileEdgeFilters rnew fs with
    | error e =>
      rw [hce] at h
      exact Or.inr ⟨nconds, e, rfl, rfl, (Except.error.inj h).symm⟩
    | ok econds => rw [hce] at h; simp at h

lemma nodesWF_insert {N : Type} :
    ∀ (m : NodeMap (Node N)) (k : Int) (v : Node N), k = v.id → NodesWF m →
      NodesWF (NodeMap.insert m k v).2 := by
  intro m
  induction m with
  | nil =>
    intro k v hk _ p hp
    rw [NodeMap.insert] at hp
    rcases List.mem_singleton.mp hp with h
    rw [h, hk]
  | cons q rest ih =>
    intro k v hk hm p hp
    obtain ⟨k', v'⟩ := q
    rw [NodeMap.insert] at hp
    by_cases h1 : k < k'
    · rw [if_pos h1] at hp
      rcases List.mem_cons.mp hp with h | h
      · rw [h, hk]
      · exact hm p h
    · rw [if_neg h1] at hp
      by_cases h2 : k = k'
      · rw [if_pos h2] at hp
        rcases List.mem_cons.mp hp with h | h
        · rw [h, hk]
        · exact hm p (List.mem_cons_of_mem _ h)
      · rw [if_neg h2] at hp
        rcases List.mem_cons.mp hp with h | h
        · rw [h]
          exact hm (k', v') (List.mem_cons_self _ _)
        · exact ih k v hk (fun q hq => hm q (List.mem_cons_of_mem _ hq)) p h

/-- C10: `Filters::apply` preserves the graph's structure — it creates and
deletes no node or edge, changes no node identifier and no edge's
parent/child pair, and keeps the invariant that every key of the nodes
mapping equals the stored node's identifier; the invariant also holds
after `add_node`. This holds both when apply completes and for the graph
state it leaves behind when it fails on an invalid pattern. -/
theorem apply_preserves_structure :
    (∀ (g : FbxGraph) (n : FbxNode), NodesWF g.nodes →
      NodesWF (g.add_node n).2.nodes) ∧
    (∀ (fs : Filters) (rnew : RegexNew) (g g' : FbxGraph),
      fs.apply rnew g = Except.ok g' → StructRel g g') ∧
    (∀ (fs : Filters) (rnew : RegexNew) (g g' : FbxGraph),
      fs.apply rnew g = Except.error g' → StructRel g g') := by
  refine ⟨?_, ?_, ?_⟩
  · intro g n hw
    exact nodesWF_insert g.nodes n.id n rfl hw
  · intro fs rnew g g' h
    obtain ⟨nconds, econds, _, _, hg'⟩ := apply_ok_eq h
    rw [hg']
    exact structRel_trans (structRel_copyOverlays fs g)
      (structRel_trans (structRel_applyNodeRules fs nconds _)
        (structRel_applyEdgeRules fs econds _))
  · intro fs rnew g g' h
    rcases apply_error_eq h with ⟨e, _, hg'⟩ | ⟨nconds, e, _, _, hg'⟩
    · rw [hg']
      exact structRel_copyOverlays fs g
    · rw [hg']
      exact structRel_trans (structRel_copyOverlays fs g)
        (structRel_applyNodeRules fs nconds _)

/-- Witness for `apply_preserves_structure`: a filter set with one
always-matching node rule that hides its match applied to a one-node
graph succeeds, and the result keeps the node key and its identifier and
has no edges; `add_node` on that graph keeps the key invariant. -/
theorem apply_preserves_structure_witness :
    NodeMap.keys
      (applyEdgeRules
        { graph_styles := [], node_styles := [("bg", "blue")], edge_styles := [],
          node_operations := [("h", [{ name := "hide", args := [["self"]] }])],
          edge_operations := [],
          node_filters :=
            [{ condition :=
                 { «class» := none, subclass := none, name := none, uid := none },
               operations := ["h"] }],
          edge_filters := [], show_implicit_nodes := none }
        (applyNodeRules
          { graph_styles := [], node_styles := [("bg", "blue")], edge_styles := [],
            node_operations := [("h", [{ name := "hide", args := [["self"]] }])],
            edge_operations := [],
            node_filters :=
              [{ condition :=
                   { «class» := none, subclass := none, name := none, uid := none },
                 operations := ["h"] }],
            edge_filters := [], show_implicit_nodes := none }
          (copyOverlays
            { graph_styles := [], node_styles := [("bg", "blue")], edge_styles := [],
              node_operations := [("h", [{ name := "hide", args := [["self"]] }])],
              edge_operations := [],
              node_filters :=
                [{ condition :=
                     { «class» := none, subclass := none, name := none, uid := none },
                   operations := ["h"] }],
              edge_filters := [], show_implicit_nodes := none }
            { name := "g", graph_styles := [], node_styles := [], edge_styles := [],
              nodes := [(1, { id := 1, visible := true, styles := [], data := none })],
              edges := [] })
          [({ «class» := none, subclass := none, name := none, uid := none }, ["h"])])
        []).nodes
      = [1] := by
  have h := apply_preserves_structure.2.1
    { graph_styles := [], node_styles := [("bg", "blue")], edge_styles := [],
      node_operations := [("h", [{ name := "hide", args := [["self"]] }])],
      edge_operations := [],
      node_filters :=
        [{ condition :=
             { «class» := none, subclass := none, name := none, uid := none },
           operations := ["h"] }],
      edge_filters := [], show_implicit_nodes := none }
    (fun _ => Except.ok (fun _ => true))
    { name := "g", graph_styles := [], node_styles := [], edge_styles := [],
      nodes := [(1, { id := 1, visible := true, styles := [], data := none })],
      edges := [] }
    _ rfl
  exact h.1.trans rfl

lemma edges_foldl {α : Type} {F : FbxGraph → α → FbxGraph}
    (h : ∀ g a, (F g a).edges = g.edges) :
    ∀ (l : List α) (g : FbxGraph), (List.foldl F g l).edges = g.edges := by
  intro l
  induction l with
  | nil => intro g; rfl
  | cons a l ih =>
    intro g
    rw [List.foldl_cons, ih, h]

lemma applyHideShowTarget_edges (b : Bool) (id : Int) (g : FbxGraph) (t : String) :
    (applyHideShowTarget b id g t).edges = g.edges :=
  (visOnlyRel_hideShowTarget b id g t).2.2.2.2.1

lemma applyNodeOp_edges (id : Int) (g : FbxGraph) (op : NodeOperation) :
    (applyNodeOp id g op).edges = g.edges := by
  rw [applyNodeOp]
  by_cases h1 : op.name = "update-attr"
  · rw [if_pos h1]
    refine edges_foldl ?_ op.args g
    intro g arg
    cases arg with
    | nil => rfl
    | cons a tl => cases tl with
      | nil => rfl
      | cons b tl2 => rfl
  · rw [if_neg h1]
    by_cases h2 : op.name = "remove-attr"
    · rw [if_pos h2]
      cases op.args.head? with
      | none => rfl
      | some args0 =>
        refine edges_foldl ?_ args0 g
        intro g name
        rfl
    · rw [if_neg h2]
      by_cases h3 : op.name = "hide" ∨ op.name = "show"
      · rw [if_pos h3]
        cases op.args.head? with
        | none => rfl
        | some args0 =>
          exact edges_foldl (fun g t => applyHideShowTarget_edges _ id g t) args0 g
      · rw [if_neg h3]

lemma apply_node_operations_edges (fs : Filters) (id : Int) (g : FbxGraph)
    (ops : List String) : (fs.apply_node_operations id g ops).edges = g.edges := by
  rw [Filters.apply_node_operations]
  refine edges_foldl ?_ _ g
  intro g group
  exact edges_foldl (fun g op => applyNodeOp_edges id g op) group g

lemma applyNodeRules_edges (fs : Filters)
    (conds : List (CompiledNodeFilterCondition × List String)) (g : FbxGraph) :
    (applyNodeRules fs g conds).edges = g.edges := by
  rw [applyNodeRules]
  refine edges_foldl ?_ conds g
  intro g rule
  rw [applyNodeRule]
  exact edges_foldl (fun g uid => apply_node_operations_edges fs uid g rule.2) _ g

/-- C1 counterexample: with one node rule whose `uid` pattern fails to
compile, `Filters::apply` panics as claimed, but the graph is NOT left
entirely unmodified: the `node_styles` overlay has already been copied
into it, overwriting the graph's pre-existing value for the colliding key
(`color` goes from `blue` to the overlay's `red`). -/
theorem apply_invalid_pattern_counterexample :
    (Filters.apply
      { graph_styles := [], node_styles := [("color", "red")], edge_styles := [],
        node_operations := [], edge_operations := [],
        node_filters :=
          [{ condition :=
               { «class» := none, subclass := none, name := none,
                 uid := some "(" },
             operations := [] }],
        edge_filters := [], show_implicit_nodes := none }
      (fun s => if s = "(" then Except.error () else Except.ok (fun _ => true))
      { name := "g", graph_styles := [], node_styles := [("color", "blue")],
        edge_styles := [], nodes := [], edges := [] } =
      Except.error
        { name := "g", graph_styles := [], node_styles := [("color", "red")],
          edge_styles := [], nodes := [], edges := [] }) ∧
    ({ name := "g", graph_styles := [], node_styles := [("color", "red")],
       edge_styles := [], nodes := [], edges := [] } : FbxGraph) ≠
      { name := "g", graph_styles := [], node_styles := [("color", "blue")],
        edge_styles := [], nodes := [], edges := [] } := by
  constructor
  · rfl
  · decide

/-- C1 as amended: an invalid pattern makes `Filters::apply` fail fatally,
but only after the style-default overlays have been copied into the
graph; when the invalid pattern is in a node rule the panic happens
before any node or edge mutation (nodes, edges and name are still those
of the input graph), and when all node patterns compile but an edge
pattern is invalid, the panic happens after the node rules have fully run
and before any edge mutation (the edge list is still exactly the input's). -/
theorem apply_invalid_pattern_failfast (fs : Filters) (rnew : RegexNew)
    (g : FbxGraph) :
    ((∃ e, compileNodeFilters rnew fs = Except.error e) →
      fs.apply rnew g = Except.error (copyOverlays fs g) ∧
      (copyOverlays fs g).nodes = g.nodes ∧
      (copyOverlays fs g).edges = g.edges ∧
      (copyOverlays fs g).name = g.name) ∧
    (∀ nconds, compileNodeFilters rnew fs = Except.ok nconds →
      (∃ e, compileEdgeFilters rnew fs = Except.error e) →
      fs.apply rnew g =
        Except.error (applyNodeRules fs (copyOverlays fs g) nconds) ∧
      (applyNodeRules fs (copyOverlays fs g) nconds).edges = g.edges) := by
  constructor
  · rintro ⟨e, he⟩
    refine ⟨?_, rfl, rfl, rfl⟩
    rw [Filters.apply, he]
  · rintro nconds hn ⟨e, he⟩
    refine ⟨?_, ?_⟩
    · rw [Filters.apply, hn, he]
    · rw [applyNodeRules_edges]
      rfl

/-- Witness for `apply_invalid_pattern_failfast`: the concrete failing
filter set of the counterexample satisfies both hypotheses chains (its
node pattern fails to compile), and a filter set with a bad edge pattern
satisfies the second. -/
theorem apply_invalid_pattern_failfast_witness :
    (Filters.apply
      { graph_styles := [], node_styles := [("color", "red")], edge_styles := [],
        node_operations := [], edge_operations := [],
        node_filters :=
          [{ condition :=
               { «class» := none, subclass := none, name := none,
                 uid := some "(" },
             operations := [] }],
        edge_filters := [], show_implicit_nodes := none }
      (fun s => if s = "(" then Except.error () else Except.ok (fun _ => true))
      { name := "g", graph_styles := [], node_styles := [], edge_styles := [],
        nodes := [], edges := [] } =
      Except.error
        (copyOverlays
          { graph_styles := [], node_styles := [("color", "red")], edge_styles := [],
            node_operations := [], edge_operations := [],
            node_filters :=
              [{ condition :=
                   { «class» := none, subclass := none, name := none,
                     uid := some "(" },
                 operations := [] }],
            edge_filters := [], show_implicit_nodes := none }
          { name := "g", graph_styles := [], node_styles := [], edge_styles := [],
            nodes := [], edges := [] })) ∧
    (Filters.apply
      { graph_styles := [], node_styles := [], edge_styles := [],
        node_operations := [], edge_operations := [],
        node_filters := [],
        edge_filters :=
          [{ condition :=
               { src_condition := none, dst_condition := none,
                 connection_type := some "(", property_name := none },
             operations := [] }],
        show_implicit_nodes := none }
      (fun s => if s = "(" then Except.error () else Except.ok (fun _ => true))
      { name := "g", graph_styles := [], node_styles := [], edge_styles := [],
        nodes := [], edges := [] } =
      Except.error
        (applyNodeRules
          { graph_styles := [], node_styles := [], edge_styles := [],
            node_operations := [], edge_operations := [],
            node_filters := [],
            edge_filters :=
              [{ condition :=
                   { src_condition := none, dst_condition := none,
                     connection_type := some "(", property_name := none },
                 operations := [] }],
            show_implicit_nodes := none }
          (copyOverlays
            { graph_styles := [], node_styles := [], edge_styles := [],
              node_operations := [], edge_operations := [],
              node_filters := [],
              edge_filters :=
                [{ condition :=
                     { src_condition := none, dst_condition := none,
                       connection_type := some "(", property_name := none },
                   operations := [] }],
              show_implicit_nodes := none }
            { name := "g", graph_styles := [], node_styles := [], edge_styles := [],
              nodes := [], edges := [] })
          [])) := by
  have h1 := apply_invalid_pattern_failfast
    { graph_styles := [], node_styles := [("color", "red")], edge_styles := [],
      node_operations := [], edge_operations := [],
      node_filters :=
        [{ condition :=
             { «class» := none, subclass := none, name := none,
               uid := some "(" },
           operations := [] }],
      edge_filters := [], show_implicit_nodes := none }
    (fun s => if s = "(" then Except.error () else Except.ok (fun _ => true))
    { name := "g", graph_styles := [], node_styles := [], edge_styles := [],
      nodes := [], edges := [] }
  have h2 := apply_invalid_pattern_failfast
    { graph_styles := [], node_styles := [], edge_styles := [],
      node_operations := [], edge_operations := [],
      node_filters := [],
      edge_filters :=
        [{ condition :=
             { src_condition := none, dst_condition := none,
               connection_type := some "(", property_name := none },
           operations := [] }],
      show_implicit_nodes := none }
    (fun s => if s = "(" then Except.error () else Except.ok (fun _ => true))
    { name := "g", graph_styles := [], node_styles := [], edge_styles := [],
      nodes := [], edges := [] }
  exact ⟨(h1.1 ⟨(), rfl⟩).1, (h2.2 [] rfl ⟨(), rfl⟩).1⟩

/-- C3: for each compiled node rule in declared order, the match set is
computed once from the current graph state — which reflects exactly the
mutations of the earlier rules — then every named operation group is
applied to each match before the next rule is considered, and the whole
node-rule pass completes (on the overlay-updated graph) before the
edge-rule pass starts. -/
theorem node_rule_sequencing (fs : Filters) (rnew : RegexNew) (g : FbxGraph)
    (nconds : List (CompiledNodeFilterCondition × List String))
    (econds : List (CompiledEdgeFilterCondition × List String))
    (hn : compileNodeFilters rnew fs = Except.ok nconds)
    (he : compileEdgeFilters rnew fs = Except.ok econds) :
    fs.apply rnew g =
      Except.ok (applyEdgeRules fs (applyNodeRules fs (copyOverlays fs g) nconds)
        econds) ∧
    (∀ (gc : FbxGraph), applyNodeRules fs gc [] = gc) ∧
    (∀ (gc : FbxGraph) rule rest,
      applyNodeRules fs gc (rule :: rest) =
        applyNodeRules fs
          (List.foldl (fun gc uid => fs.apply_node_operations uid gc rule.2) gc
            (matchedUids gc rule.1)) rest) ∧
    (∀ (gc : FbxGraph), applyEdgeRules fs gc [] = gc) ∧
    (∀ (gc : FbxGraph) rule rest,
      applyEdgeRules fs gc (rule :: rest) =
        applyEdgeRules fs (applyEdgeRule fs gc rule) rest) := by
  refine ⟨?_, fun gc => rfl, fun gc rule rest => rfl, fun gc => rfl,
    fun gc rule rest => rfl⟩
  rw [Filters.apply, hn, he]

/-- Witness for `node_rule_sequencing`: the empty filter set compiles to
empty rule lists and apply returns the overlay-updated graph through the
two (empty) passes. -/
theorem node_rule_sequencing_witness :
    Filters.apply
      { graph_styles := [], node_styles := [], edge_styles := [],
        node_operations := [], edge_operations := [], node_filters := [],
        edge_filters := [], show_implicit_nodes := none }
      (fun _ => Except.ok (fun _ => true))
      { name := "g", graph_styles := [], node_styles := [], edge_styles := [],
        nodes := [], edges := [] } =
      Except.ok
        (applyEdgeRules
          { graph_styles := [], node_styles := [], edge_styles := [],
            node_operations := [], edge_operations := [], node_filters := [],
            edge_filters := [], show_implicit_nodes := none }
          (applyNodeRules
            { graph_styles := [], node_styles := [], edge_styles := [],
              node_operations := [], edge_operations := [], node_filters := [],
              edge_filters := [], show_implicit_nodes := none }
            (copyOverlays
              { graph_styles := [], node_styles := [], edge_styles := [],
                node_operations := [], edge_operations := [], node_filters := [],
                edge_filters := [], show_implicit_nodes := none }
              { name := "g", graph_styles := [], node_styles := [],
                edge_styles := [], nodes := [], edges := [] })
            [])
          []) := by
  have h := node_rule_sequencing
    { graph_styles := [], node_styles := [], edge_styles := [],
      node_operations := [], edge_operations := [], node_filters := [],
      edge_filters := [], show_implicit_nodes := none }
    (fun _ => Except.ok (fun _ => true))
    { name := "g", graph_styles := [], node_styles := [], edge_styles := [],
      nodes := [], edges := [] }
    [] [] rfl rfl
  exact h.1
